import Mathlib

/-!
# go-filetext: text recovery, encoding normalisation and size checks

A shallow embedding of the extractors of `go-filetext`
(`extractor/plaintext.go`, `pkg/extractor/docx.go`, `pkg/extractor/pptx.go`,
`pkg/extractor/pdf.go`, `pkg/extractor/xlsx.go`, `pkg/extractor/factory.go`,
`pkg/extractor/legacy_office.go`, `pkg/extractor/image.go`).

Conventions of the embedding

* A Go `string` / `[]byte` is a list of bytes, `Bytes`; a byte is a natural
  number (every byte of a real input is below 256, and no definition below
  depends on that bound).  Go strings are not required to be valid UTF-8 and
  neither are the lists here.
* Library calls whose result depends on code outside the repository
  (`zip.NewReader`, `xlsx.OpenFile`, `pdf.Open`, the decoders of
  `golang.org/x/text`, `os.CreateTemp`, `mimetype.DetectFile`, `image.Decode`,
  `filepath.Base`, `strings.ToLower`, the clock) are parameters of the
  definitions that use them.
* The two regular expressions of the OOXML recovery are embedded as the
  scanners that Go's leftmost-first `regexp` semantics prescribes for them.
-/

namespace GoFiletext

/-- A Go `string` or `[]byte`: a list of bytes, each byte a natural number. -/
abbrev Bytes := List Nat

deriving instance DecidableEq for Except

/-- The bytes of an ASCII string literal of the source. -/
def ascii (s : String) : Bytes := s.toList.map Char.toNat

/-! ## The `strings` functions used by the extractors -/

/-- The six ASCII bytes of `unicode.IsSpace`: `\t \n \v \f \r` and the space. -/
def isAsciiSpace (b : Nat) : Bool :=
  b == 9 || b == 10 || b == 11 || b == 12 || b == 13 || b == 32

/-- Two-byte UTF-8 encodings of white space: U+0085 and U+00A0. -/
def isSpace2 (b0 b1 : Nat) : Bool :=
  b0 == 0xC2 && (b1 == 0x85 || b1 == 0xA0)

/-- Three-byte UTF-8 encodings of white space: U+1680, U+2000..U+200A,
U+2028, U+2029, U+202F, U+205F and U+3000. -/
def isSpace3 (b0 b1 b2 : Nat) : Bool :=
  (b0 == 0xE1 && b1 == 0x9A && b2 == 0x80) ||
  (b0 == 0xE2 && b1 == 0x80 &&
    ((0x80 ≤ b2 && b2 ≤ 0x8A) || b2 == 0xA8 || b2 == 0xA9 || b2 == 0xAF)) ||
  (b0 == 0xE2 && b1 == 0x81 && b2 == 0x9F) ||
  (b0 == 0xE3 && b1 == 0x80 && b2 == 0x80)

/-- Removal of the leading white-space runes (`strings.TrimLeftFunc` with
`unicode.IsSpace`): the text is decoded rune by rune from the left and the
scan stops at the first rune that is not white space (an invalid byte decodes
to U+FFFD, which is not white space). -/
def trimLeftSpace : Bytes → Bytes
  | [] => []
  | b0 :: r0 =>
    if isAsciiSpace b0 then trimLeftSpace r0
    else match r0 with
      | [] => [b0]
      | b1 :: r1 =>
        if isSpace2 b0 b1 then trimLeftSpace r1
        else match r1 with
          | [] => [b0, b1]
          | b2 :: r2 =>
            if isSpace3 b0 b1 b2 then trimLeftSpace r2 else b0 :: b1 :: b2 :: r2

/-- The scan of `strings.TrimRightFunc` with `unicode.IsSpace`, on the reversed
text: the last rune is decoded (`utf8.DecodeLastRuneInString`) and removed
while it is white space. -/
def trimLeftSpaceRev : Bytes → Bytes
  | [] => []
  | b0 :: r0 =>
    if isAsciiSpace b0 then trimLeftSpaceRev r0
    else match r0 with
      | [] => [b0]
      | b1 :: r1 =>
        if isSpace2 b1 b0 then trimLeftSpaceRev r1
        else match r1 with
          | [] => [b0, b1]
          | b2 :: r2 =>
            if isSpace3 b2 b1 b0 then trimLeftSpaceRev r2 else b0 :: b1 :: b2 :: r2

/-- Removal of the trailing white-space runes. -/
def trimRightSpace (s : Bytes) : Bytes :=
  (trimLeftSpaceRev s.reverse).reverse

/-- Go `strings.TrimSpace`. -/
def TrimSpace (s : Bytes) : Bytes :=
  trimRightSpace (trimLeftSpace s)

/-- Go `strings.Join`. -/
def Join (parts : List Bytes) (sep : Bytes) : Bytes :=
  sep.intercalate parts

/-- Go `strings.ReplaceAll` for a non-empty `old` (the only use in the
program): the non-overlapping occurrences of `old`, found from the left, are
replaced by `new`.  The first argument counts the bytes of the current
occurrence that are still to be skipped. -/
def replaceFrom (old new : Bytes) : Nat → Bytes → Bytes
  | _, [] => []
  | k + 1, _ :: t => replaceFrom old new k t
  | 0, b :: t =>
    if old.isPrefixOf (b :: t) then new ++ replaceFrom old new (old.length - 1) t
    else b :: replaceFrom old new 0 t

/-- Go `strings.ReplaceAll(s, old, new)`, `old` non-empty. -/
def ReplaceAll (s old new : Bytes) : Bytes :=
  replaceFrom old new 0 s

/-- Go `strings.Count(s, sep)` for a single-byte separator. -/
def Count (s : Bytes) (sep : Nat) : Nat :=
  s.count sep

/-! ## The regular expressions of the OOXML recovery -/

/-- The text before and after the first occurrence of the byte `c`. -/
def splitAtFirst (c : Nat) : Bytes → Option (Bytes × Bytes)
  | [] => none
  | b :: t =>
    if b = c then some ([], t)
    else (splitAtFirst c t).map (fun p => (b :: p.1, p.2))

/-- The pattern `(.*?)lit` anchored at the start of the text: the shortest run
of bytes other than the line feed that is followed by `lit`.  Returns the
captured run and the text after `lit`. -/
def lazyDotUntil (lit : Bytes) : Bytes → Option (Bytes × Bytes)
  | [] => if lit.isEmpty then some ([], []) else none
  | b :: t =>
    if lit.isPrefixOf (b :: t) then some ([], (b :: t).drop lit.length)
    else if b = 10 then none
    else (lazyDotUntil lit t).map (fun p => (b :: p.1, p.2))

/-- The pattern `<w:p[^>]*>(.*?)</w:p>` anchored at the start of the text:
the capture and the text after the match.  `[^>]*>` can only end at the first
`>`; `.` does not match a line feed. -/
def matchParagraphAt (s : Bytes) : Option (Bytes × Bytes) :=
  if (ascii "<w:p").isPrefixOf s then
    match splitAtFirst 62 (s.drop 4) with
    | none => none
    | some (_, body) => lazyDotUntil (ascii "</w:p>") body
  else none

/-- The pattern `<x:t[^>]*>([^<]*)</x:t>` anchored at the start of the text,
for the opening literal `tag` (`<w:t` or `<a:t`) and the closing literal
`close`: `[^>]*>` ends at the first `>`, `[^<]*` runs to the next `<`, which
has to start `close`. -/
def matchRunAt (tag close : Bytes) (s : Bytes) : Option (Bytes × Bytes) :=
  if tag.isPrefixOf s then
    match splitAtFirst 62 (s.drop tag.length) with
    | none => none
    | some (_, body) =>
      if close.isPrefixOf (body.dropWhile (fun b => b != 60)) then
        some (body.takeWhile (fun b => b != 60),
              (body.dropWhile (fun b => b != 60)).drop close.length)
      else none
  else none

/-- Go `FindAllStringSubmatch(s, -1)`, reduced to the first capture group of
each match, for a pattern given by its anchored matcher: the matches are
searched from the left and do not overlap.  The first argument counts the
bytes of the last match that are still to be skipped. -/
def findAllFrom (matchAt : Bytes → Option (Bytes × Bytes)) :
    Nat → Bytes → List Bytes
  | _, [] => []
  | k + 1, _ :: t => findAllFrom matchAt k t
  | 0, b :: t =>
    match matchAt (b :: t) with
    | some (cap, rest) => cap :: findAllFrom matchAt (t.length - rest.length) t
    | none => findAllFrom matchAt 0 t

/-- The captures of all matches of a pattern in a text. -/
def findAllSubmatch (matchAt : Bytes → Option (Bytes × Bytes))
    (s : Bytes) : List Bytes :=
  findAllFrom matchAt 0 s

/-! ## DOCX (`pkg/extractor/docx.go`) -/

/-- The captures of `textRegex` = `<w:t[^>]*>([^<]*)</w:t>` in a paragraph. -/
def textRuns (paragraph : Bytes) : List Bytes :=
  findAllSubmatch (matchRunAt (ascii "<w:t") (ascii "</w:t>")) paragraph

/-- The loop of `extractTextFromXML` over the paragraphs, from index `i`, for
`n = len(paragraphs)`: the runs of the paragraph are written, then a line
feed when `i < n - 1`. -/
def writeParagraphs (n : Nat) : Nat → List Bytes → Bytes
  | _, [] => []
  | i, paragraph :: rest =>
    (textRuns paragraph).flatten ++ (if i < n - 1 then [10] else []) ++
      writeParagraphs n (i + 1) rest

/-- The function `DOCXExtractor.extractTextFromXML`. -/
def extractTextFromXML (xmlContent : Bytes) : Bytes :=
  let paragraphs := findAllSubmatch matchParagraphAt xmlContent
  TrimSpace (writeParagraphs paragraphs.length 0 paragraphs)

/-- A text run element `<w:r><w:t>T</w:t></w:r>` holding the text `T`. -/
def runXML (t : Bytes) : Bytes :=
  ascii "<w:r><w:t>" ++ t ++ ascii "</w:t></w:r>"

/-- A paragraph element `<w:p>…</w:p>` holding the given text runs. -/
def paragraphXML (runs : List Bytes) : Bytes :=
  ascii "<w:p>" ++ (runs.map runXML).flatten ++ ascii "</w:p>"

/-- A document part made of the given paragraphs. -/
def documentXML (paragraphs : List (List Bytes)) : Bytes :=
  (paragraphs.map paragraphXML).flatten


/-! ## PPTX (`pkg/extractor/pptx.go`) -/

/-- An entry of a ZIP archive as `extractTextFromPPTX` sees it: its name and
the bytes that `file.Open` followed by `io.ReadAll` deliver, `none` when one
of the two fails. -/
structure ZipFile where
  Name : Bytes
  data : Option (Bytes)

/-- Go `strings.HasPrefix`. -/
def HasPrefix (s pre : Bytes) : Bool := pre.isPrefixOf s

/-- Go `strings.HasSuffix`. -/
def HasSuffix (s suf : Bytes) : Bool := suf.isSuffixOf s

/-- The test that makes an archive entry a slide part. -/
def isSlidePart (name : Bytes) : Bool :=
  HasPrefix name (ascii "ppt/slides/slide") && HasSuffix name (ascii ".xml")

/-- The loop of `extractTextFromSlideXML` over the matches: a capture whose
trimmed form is not empty contributes its trimmed form. -/
def textParts : List Bytes → List Bytes
  | [] => []
  | m :: rest =>
    if TrimSpace m != [] then TrimSpace m :: textParts rest else textParts rest

/-- The function `PPTXExtractor.extractTextFromSlideXML`; the pattern is
`<a:t[^>]*>([^<]*)</a:t>`. -/
def extractTextFromSlideXML (xmlContent : Bytes) : Bytes :=
  let matches_ := findAllSubmatch (matchRunAt (ascii "<a:t") (ascii "</a:t>")) xmlContent
  Join (textParts matches_) (ascii " ")

/-- The loop of `extractTextFromPPTX` over the archive entries, on the state
`(allText, slideCount)`. -/
def slideLoop : List ZipFile → List Bytes × Nat → List Bytes × Nat
  | [], st => st
  | file :: rest, (allText, slideCount) =>
    if isSlidePart file.Name then
      match file.data with
      | none => slideLoop rest (allText, slideCount + 1)
      | some xmlContent =>
        if extractTextFromSlideXML xmlContent != [] then
          slideLoop rest (allText ++ [extractTextFromSlideXML xmlContent], slideCount + 1)
        else slideLoop rest (allText, slideCount + 1)
    else slideLoop rest (allText, slideCount)

/-- The function `PPTXExtractor.extractTextFromPPTX`; `zipNewReader` stands
for `zip.NewReader`, `none` being its error.  Returns the text and the slide
count, or the error message. -/
def extractTextFromPPTX (zipNewReader : Bytes → Option (List ZipFile))
    (content : Bytes) : Except String (Bytes × Nat) :=
  match zipNewReader content with
  | none => .error "failed to read PPTX as ZIP"
  | some files =>
    let st := slideLoop files ([], 0)
    .ok (Join st.1 (ascii "\n\n"), st.2)

/-- A text run element `<a:r><a:t>T</a:t></a:r>` of a slide. -/
def slideRunXML (t : Bytes) : Bytes :=
  ascii "<a:r><a:t>" ++ t ++ ascii "</a:t></a:r>"

/-- A slide part holding the given text runs. -/
def slideXML (runs : List Bytes) : Bytes :=
  (runs.map slideRunXML).flatten

/-- The slide-text block of the specification: the non-empty trimmed runs
joined by single spaces. -/
def slideBlock (runs : List Bytes) : Bytes :=
  Join ((runs.map TrimSpace).filter (fun t => t != [])) (ascii " ")

/-! ## UTF-8 (`unicode/utf8`, `strings.ToValidUTF8`) -/

/-- A continuation byte, `0x80..0xBF`. -/
def isCont (b : Nat) : Bool := 0x80 ≤ b && b ≤ 0xBF

/-- The range accepted for the second byte of a sequence led by `b0`
(table `acceptRanges` of `unicode/utf8`). -/
def second (b0 b1 : Nat) : Bool :=
  if b0 = 0xE0 then 0xA0 ≤ b1 && b1 ≤ 0xBF
  else if b0 = 0xED then 0x80 ≤ b1 && b1 ≤ 0x9F
  else if b0 = 0xF0 then 0x90 ≤ b1 && b1 ≤ 0xBF
  else if b0 = 0xF4 then 0x80 ≤ b1 && b1 ≤ 0x8F
  else isCont b1

/-- A well-formed two-byte sequence. -/
def seq2 (b0 b1 : Nat) : Bool := 0xC2 ≤ b0 && b0 ≤ 0xDF && isCont b1

/-- A well-formed three-byte sequence. -/
def seq3 (b0 b1 b2 : Nat) : Bool := 0xE0 ≤ b0 && b0 ≤ 0xEF && second b0 b1 && isCont b2

/-- A well-formed four-byte sequence. -/
def seq4 (b0 b1 b2 b3 : Nat) : Bool :=
  0xF0 ≤ b0 && b0 ≤ 0xF4 && second b0 b1 && isCont b2 && isCont b3

/-- Go `utf8.Valid`: the bytes are a concatenation of well-formed UTF-8
sequences. -/
def utf8Valid : Bytes → Bool
  | [] => true
  | b0 :: r0 =>
    if b0 < 0x80 then utf8Valid r0
    else match r0 with
      | [] => false
      | b1 :: r1 =>
        if seq2 b0 b1 then utf8Valid r1
        else match r1 with
          | [] => false
          | b2 :: r2 =>
            if seq3 b0 b1 b2 then utf8Valid r2
            else match r2 with
              | [] => false
              | b3 :: r3 => if seq4 b0 b1 b2 b3 then utf8Valid r3 else false

/-- The loop of `strings.ToValidUTF8`: well-formed sequences are copied; a
byte that starts no well-formed sequence (`utf8.DecodeRuneInString` returns
width 1) is dropped, and `replacement` is written for the first byte of each
run of such bytes (`dropped` below).  `invalid` tells whether the previous
byte was dropped. -/
def toValidLoop (replacement : Bytes) : Bool → Bytes → Bytes
  | _, [] => []
  | invalid, b0 :: r0 =>
    let dropped := (if invalid then [] else replacement) ++ toValidLoop replacement true r0
    if b0 < 0x80 then b0 :: toValidLoop replacement false r0
    else match r0 with
      | [] => dropped
      | b1 :: r1 =>
        if seq2 b0 b1 then b0 :: b1 :: toValidLoop replacement false r1
        else match r1 with
          | [] => dropped
          | b2 :: r2 =>
            if seq3 b0 b1 b2 then b0 :: b1 :: b2 :: toValidLoop replacement false r2
            else match r2 with
              | [] => dropped
              | b3 :: r3 =>
                if seq4 b0 b1 b2 b3 then
                  b0 :: b1 :: b2 :: b3 :: toValidLoop replacement false r3
                else dropped

/-- Go `strings.ToValidUTF8` (its fast path for valid input returns what the
loop returns). -/
def ToValidUTF8 (s replacement : Bytes) : Bytes :=
  toValidLoop replacement false s

/-- Go `len([]rune(s))`: the number of runes, an ill-formed byte counting as
one rune (`one` below: the first byte alone is a rune). -/
def runeCount : Bytes → Nat
  | [] => 0
  | b0 :: r0 =>
    let one := 1 + runeCount r0
    if b0 < 0x80 then one
    else match r0 with
      | [] => one
      | b1 :: r1 =>
        if seq2 b0 b1 then 1 + runeCount r1
        else match r1 with
          | [] => one
          | b2 :: r2 =>
            if seq3 b0 b1 b2 then 1 + runeCount r2
            else match r2 with
              | [] => one
              | b3 :: r3 => if seq4 b0 b1 b2 b3 then 1 + runeCount r3 else one

/-! ## The plain-text extractor (`extractor/plaintext.go`) -/

/-- The candidate encodings of `detectAndConvertEncoding`. -/
inductive Encoding
  | UTF16LE | UTF16BE | Windows1252 | ISO8859_1 | Windows1251
  deriving DecidableEq

/-- The ordered candidate list `encodings` with the labels of the source. -/
def encodings : List (String × Encoding) :=
  [("UTF-16LE", .UTF16LE), ("UTF-16BE", .UTF16BE), ("Windows-1252", .Windows1252),
   ("ISO-8859-1", .ISO8859_1), ("Windows-1251", .Windows1251)]

/-- The loop over the candidates: `decode enc content` stands for reading
`content` through the decoder of `enc` (`none` when the read fails); the first
candidate whose output is valid UTF-8 wins. -/
def tryEncodings (decode : Encoding → Bytes → Option (Bytes)) (content : Bytes) :
    List (String × Encoding) → Option (Bytes × String)
  | [] => none
  | enc :: rest =>
    match decode enc.2 content with
    | some result =>
      if utf8Valid result then some (result, enc.1) else tryEncodings decode content rest
    | none => tryEncodings decode content rest

/-- The replacement string literal of the source, the six bytes
`C3 AF C2 BF C2 BD`. -/
def replacementLiteral : Bytes := [0xC3, 0xAF, 0xC2, 0xBF, 0xC2, 0xBD]

/-- The function `PlainTextExtractor.detectAndConvertEncoding`: the text, the
encoding label and the error (`none` for Go's `nil`). -/
def detectAndConvertEncoding (decode : Encoding → Bytes → Option (Bytes))
    (content : Bytes) : Bytes × String × Option String :=
  if utf8Valid content then (content, "UTF-8", none)
  else match tryEncodings decode content encodings with
    | some (result, name) => (result, name, none)
    | none => (ToValidUTF8 content replacementLiteral, "UTF-8 (with replacements)", none)

/-- The function `PlainTextExtractor.normalizeLineEndings`. -/
def PlainTextExtractor.normalizeLineEndings (text : Bytes) : Bytes :=
  ReplaceAll (ReplaceAll text (ascii "\r\n") (ascii "\n")) (ascii "\r") (ascii "\n")

/-- The function `PDFExtractor.normalizeLineEndings`. -/
def PDFExtractor.normalizeLineEndings (text : Bytes) : Bytes :=
  ReplaceAll (ReplaceAll text (ascii "\r\n") (ascii "\n")) (ascii "\r") (ascii "\n")

/-- A value of the metadata map (`interface{}`): the extractors store
integers and strings. -/
inductive MetaValue
  | int (n : Int)
  | str (s : String)
  deriving DecidableEq

/-- The metadata map `map[string]interface{}`, as an association list. -/
abbrev Metadata := List (String × MetaValue)

/-- The assignment `m[k] = v`. -/
def Metadata.set (m : Metadata) (k : String) (v : MetaValue) : Metadata :=
  m.filter (fun p => p.1 != k) ++ [(k, v)]

/-- The lookup `m[k]`. -/
def Metadata.get (m : Metadata) (k : String) : Option MetaValue :=
  (m.find? (fun p => p.1 == k)).map (fun p => p.2)

/-- The type `ExtractOptions` (`Timeout` in nanoseconds). -/
structure ExtractOptions where
  FileType : String
  OCRLanguage : String
  MaxFileSize : Int
  Timeout : Int
  PreserveFormatting : Bool
  deriving DecidableEq

/-- The function `DefaultExtractOptions`. -/
def DefaultExtractOptions : ExtractOptions :=
  { FileType := "", OCRLanguage := "eng", MaxFileSize := 100 * 1024 * 1024,
    Timeout := 30 * 1000000000, PreserveFormatting := false }

/-- The type `ExtractResult`, without the wall-clock field `ProcessingTime`. -/
structure ExtractResult where
  Text : Bytes
  Metadata : Metadata
  FileType : String
  deriving DecidableEq

/-- The type `ExtractorError`; `Cause` is the message of the wrapped error. -/
structure ExtractorError where
  Message : String
  FileType : String
  Operation : String
  Cause : Option String
  deriving DecidableEq

/-- A Go `error` returned by an extractor: an `*ExtractorError` or an error
built by `fmt.Errorf`. -/
inductive GoError
  | extractor (e : ExtractorError)
  | errorf (msg : String)
  deriving DecidableEq

/-- The function `NewExtractorError`. -/
def NewExtractorError (message fileType operation : String) (cause : Option String) :
    ExtractorError :=
  { Message := message, FileType := fileType, Operation := operation, Cause := cause }

/-- An `io.Reader` as the extractors use it: the outcome of `io.ReadAll`,
the error message or the bytes read. -/
abbrev Reader := Except String Bytes

/-- The function `PlainTextExtractor.Extract`. -/
def PlainTextExtractor.Extract (decode : Encoding → Bytes → Option Bytes)
    (reader : Reader) (options : ExtractOptions) : Except GoError ExtractResult :=
  match reader with
  | .error err =>
    .error (.extractor (NewExtractorError "failed to read content" "plaintext" "read" (some err)))
  | .ok content =>
    if options.MaxFileSize > 0 ∧ (content.length : Int) > options.MaxFileSize then
      .error (.extractor (NewExtractorError
        ("file size " ++ toString content.length ++ " exceeds limit " ++
          toString options.MaxFileSize)
        "plaintext" "size_check" none))
    else
      match detectAndConvertEncoding decode content with
      | (_, _, some err) =>
        .error (.extractor
          (NewExtractorError "failed to convert encoding" "plaintext" "encoding" (some err)))
      | (text, encoding, none) =>
        let text :=
          if !options.PreserveFormatting then PlainTextExtractor.normalizeLineEndings text
          else text
        .ok { Text := text
              Metadata := [("encoding", .str encoding),
                           ("size_bytes", .int content.length),
                           ("line_count", .int (Count text 10 + 1)),
                           ("char_count", .int (runeCount text))]
              FileType := "plaintext" }

/-! ## CSV header detection (`extractor/plaintext.go`) -/

/-- Go `strings.Split(s, sep)` for a one-byte separator. -/
def Split (sep : Nat) : Bytes → List Bytes
  | [] => [[]]
  | b :: t =>
    if b = sep then [] :: Split sep t
    else match Split sep t with
      | [] => [[b]]
      | f :: fs => (b :: f) :: fs

/-- Go `strings.ContainsAny(s, chars)` for ASCII `chars`. -/
def ContainsAny (s chars : Bytes) : Bool :=
  s.any (fun b => chars.contains b)

/-- The loop of `countNumbers` over the fields. -/
def countNumbersLoop : List Bytes → Nat
  | [] => 0
  | field :: rest =>
    if TrimSpace field != [] then
      if ContainsAny (TrimSpace field) (ascii "0123456789") then 1 + countNumbersLoop rest
      else countNumbersLoop rest
    else countNumbersLoop rest

/-- The function `CSVExtractor.countNumbers`. -/
def countNumbers (row : Bytes) : Nat :=
  countNumbersLoop (Split 44 row)

/-- The function `CSVExtractor.detectCSVHeader`. -/
def detectCSVHeader (lines : List Bytes) : Bool :=
  match lines with
  | line0 :: line1 :: _ => decide (countNumbers line0 < countNumbers line1)
  | _ => false

/-- The number of comma-separated fields of a row that contain a decimal
digit, as the specification counts them. -/
def digitFields (row : Bytes) : Nat :=
  ((Split 44 row).filter (fun field => field.any (fun b => 48 ≤ b && b ≤ 57))).length

/-! ## The temporary file of the delegating extractors -/

/-- An operation on the temporary file, in the order it is performed. -/
inductive FsOp
  | createTemp
  | write (content : Bytes)
  | close
  | openFile
  | remove
  deriving DecidableEq

/-- The outcome of the two fallible operations on the temporary file: the
error of `os.CreateTemp` and of `tempFile.Write`, `none` when it succeeds. -/
structure TempFile where
  createErr : Option String
  writeErr : Option String

/-! ## DOCX extraction (`pkg/extractor/docx.go`) -/

/-- The loop of `extractTextFromDOCX` over the archive entries. -/
def findDocumentXML : List ZipFile → Except String Bytes
  | [] => .error "document.xml not found in DOCX file"
  | file :: rest =>
    if file.Name = ascii "word/document.xml" then
      match file.data with
      | none => .error "failed to open document.xml"
      | some xmlContent => .ok (extractTextFromXML xmlContent)
    else findDocumentXML rest

/-- The function `DOCXExtractor.extractTextFromDOCX`; `zipNewReader` stands
for `zip.NewReader`. -/
def extractTextFromDOCX (zipNewReader : Bytes → Option (List ZipFile))
    (content : Bytes) : Except String Bytes :=
  match zipNewReader content with
  | none => .error "failed to read DOCX as zip"
  | some files => findDocumentXML files

/-- Go `strconv.Itoa`. -/
def Itoa (n : Nat) : String := toString n

/-- The function `DOCXExtractor.Extract`. -/
def DOCXExtractor.Extract (decode : Encoding → Bytes → Option Bytes)
    (zipNewReader : Bytes → Option (List ZipFile))
    (reader : Reader) (options : ExtractOptions) : Except GoError ExtractResult :=
  match reader with
  | .error err => .error (.errorf ("failed to read DOCX content: " ++ err))
  | .ok content =>
    match PlainTextExtractor.Extract decode (.ok content) options with
    | .error err => .error err
    | .ok result =>
      match extractTextFromDOCX zipNewReader content with
      | .error err => .error (.errorf ("failed to extract text from DOCX file: " ++ err))
      | .ok extractedText =>
        .ok { Text := extractedText
              FileType := "docx"
              Metadata :=
                (((result.Metadata.set "paragraphs" (.str (Itoa (Count extractedText 10 + 1)))).set
                  "table_count" (.str "0")).set
                  "characters" (.str (Itoa extractedText.length))).set
                  "line_count" (.str (Itoa (Count extractedText 10 + 1))) }

/-! ## XLSX extraction (`pkg/extractor/xlsx.go`) -/

/-- A workbook as `xlsx.OpenFile` delivers it: the sheets, each the rows that
`ForEachRow` visits, each the strings (`cell.String()`) of the cells that
`ForEachCell` visits. -/
abbrev Workbook := List (List (List Bytes))

/-- The variables of the loop of `XLSXExtractor.Extract`. -/
structure XLSXState where
  extractedText : Bytes
  sheetCount : Nat
  totalRows : Nat
  totalCells : Nat
  deriving DecidableEq

/-- The callback of `row.ForEachCell`, over the cells of a row. -/
def forEachCell : List Bytes → XLSXState → XLSXState
  | [], st => st
  | cell :: rest, st =>
    forEachCell rest
      { st with
        totalCells := st.totalCells + 1
        extractedText :=
          if TrimSpace cell != [] then st.extractedText ++ TrimSpace cell
          else st.extractedText }

/-- The callback of `sheet.ForEachRow`, over the rows of a sheet. -/
def forEachRow : List (List Bytes) → XLSXState → XLSXState
  | [], st => st
  | row :: rest, st =>
    forEachRow rest (forEachCell row { st with totalRows := st.totalRows + 1 })

/-- The loop over `xlsxFile.Sheets`. -/
def sheetLoop : Workbook → XLSXState → XLSXState
  | [], st => st
  | sheet :: rest, st =>
    sheetLoop rest (forEachRow sheet { st with sheetCount := st.sheetCount + 1 })

/-- The function `XLSXExtractor.Extract`: the operations performed on the
temporary file and the result.  `openFile` stands for `xlsx.OpenFile` on a
file of the given content. -/
def XLSXExtractor.Extract (decode : Encoding → Bytes → Option Bytes) (tmp : TempFile)
    (openFile : Bytes → Except String Workbook)
    (reader : Reader) (options : ExtractOptions) :
    List FsOp × Except GoError ExtractResult :=
  match reader with
  | .error err => ([], .error (.errorf ("failed to read XLSX content: " ++ err)))
  | .ok content =>
    match PlainTextExtractor.Extract decode (.ok content) options with
    | .error err => ([], .error err)
    | .ok result =>
      match tmp.createErr with
      | some err =>
        ([.createTemp], .error (.errorf ("failed to create temp file: " ++ err)))
      | none =>
        match tmp.writeErr with
        | some err =>
          ([.createTemp, .write content, .close, .remove],
            .error (.errorf ("failed to write temp file: " ++ err)))
        | none =>
          match openFile content with
          | .error err =>
            ([.createTemp, .write content, .close, .openFile, .close, .remove],
              .error (.errorf ("failed to parse XLSX file: " ++ err)))
          | .ok xlsxFile =>
            let st := sheetLoop xlsxFile
              { extractedText := [], sheetCount := 0, totalRows := 0, totalCells := 0 }
            ([.createTemp, .write content, .close, .openFile, .close, .remove],
              .ok { Text := st.extractedText
                    FileType := "xlsx"
                    Metadata :=
                      ((((result.Metadata.set "sheets" (.str (Itoa st.sheetCount))).set
                        "rows" (.str (Itoa st.totalRows))).set
                        "cells" (.str (Itoa st.totalCells))).set
                        "character_count" (.str (Itoa st.extractedText.length))).set
                        "line_count" (.str (Itoa (Count st.extractedText 10 + 1))) })

/-! ## PDF extraction (`pkg/extractor/pdf.go`) -/

/-- A page as the PDF library delivers it: `none` when `page.V.IsNull()`,
otherwise the strings `S` of `page.Content().Text` in order (a nil slice is
the empty list). -/
abbrev PDFPage := Option (List Bytes)

/-- The function `PDFExtractor.extractPageText`; its error is always nil. -/
def extractPageText (page : List Bytes) : Bytes :=
  if page.isEmpty then [] else TrimSpace page.flatten

/-- The page loop of `PDFExtractor.Extract`, from page number `pageNum`:
what is written to `textBuilder`. -/
def pageLoop (pageCount : Nat) : Nat → List PDFPage → Bytes
  | _, [] => []
  | pageNum, page :: rest =>
    match page with
    | none => pageLoop pageCount (pageNum + 1) rest
    | some texts =>
      extractPageText texts ++ (if pageNum < pageCount then ascii "\n\n" else []) ++
        pageLoop pageCount (pageNum + 1) rest

/-- Go `len(strings.Fields(s))`: the number of maximal runs of runes that are
not white space.  `afterSpace` tells whether the previous rune was white
space (or the text starts here); `word` is the case of a rune that is not
white space. -/
def fieldsCount : Bool → Bytes → Nat
  | _, [] => 0
  | afterSpace, b0 :: r0 =>
    let word := (if afterSpace then 1 else 0) + fieldsCount false r0
    if isAsciiSpace b0 then fieldsCount true r0
    else match r0 with
      | [] => word
      | b1 :: r1 =>
        if isSpace2 b0 b1 then fieldsCount true r1
        else match r1 with
          | [] => word
          | b2 :: r2 => if isSpace3 b0 b1 b2 then fieldsCount true r2 else word

/-- The function `PDFExtractor.Extract`: the operations performed on the
temporary file and the result.  `pdfOpen` stands for `pdf.Open` on a file of
the given content and delivers the pages `r.Page(1)`, …, `r.Page(r.NumPage())`. -/
def PDFExtractor.Extract (tmp : TempFile) (pdfOpen : Bytes → Except String (List PDFPage))
    (reader : Reader) (options : ExtractOptions) :
    List FsOp × Except GoError ExtractResult :=
  match reader with
  | .error err =>
    ([], .error (.extractor (NewExtractorError "failed to read PDF content" "pdf" "read"
      (some err))))
  | .ok content =>
    if options.MaxFileSize > 0 ∧ (content.length : Int) > options.MaxFileSize then
      ([], .error (.extractor (NewExtractorError
        ("file size " ++ toString content.length ++ " exceeds limit " ++
          toString options.MaxFileSize)
        "pdf" "size_check" none)))
    else
      match tmp.createErr with
      | some err =>
        ([.createTemp], .error (.extractor
          (NewExtractorError "failed to create temp file" "pdf" "temp_file" (some err))))
      | none =>
        match tmp.writeErr with
        | some err =>
          ([.createTemp, .write content, .close, .remove], .error (.extractor
            (NewExtractorError "failed to write temp file" "pdf" "temp_write" (some err))))
        | none =>
          match pdfOpen content with
          | .error err =>
            ([.createTemp, .write content, .close, .openFile, .close, .remove],
              .error (.extractor (NewExtractorError "failed to open PDF" "pdf" "open"
                (some err))))
          | .ok pages =>
            let pageCount := pages.length
            let text := pageLoop pageCount 1 pages
            let text :=
              if !options.PreserveFormatting then PDFExtractor.normalizeLineEndings text
              else text
            ([.createTemp, .write content, .close, .openFile, .close, .remove],
              .ok { Text := text
                    Metadata := [("page_count", .int pageCount),
                                 ("size_bytes", .int content.length),
                                 ("line_count", .int (Count text 10 + 1)),
                                 ("char_count", .int (runeCount text)),
                                 ("word_count", .int (fieldsCount true text))]
                    FileType := "pdf" })

/-! ## The factory (`pkg/extractor/factory.go`) -/

/-- The concrete extractor variants of the package; the factory returns one
of them as a `TextExtractor`. -/
inductive ExtractorKind
  | PlainText | CSV | Markdown | DOCX | PPTX | XLSX | PDF
  | LegacyDOC | LegacyXLS | LegacyPPT | Image
  deriving DecidableEq

/-- Go `strings.HasPrefix` on a MIME type, for an ASCII prefix. MIME types,
file paths and messages, which the program only compares and concatenates,
are Lean strings. -/
def hasPrefixStr (s pre : String) : Bool := pre.toList.isPrefixOf s.toList

/-- The function `ExtractorFactory.CreateExtractorFromPath`; `detectFile`
stands for `mimetype.DetectFile` followed by `String()`: the error, or the
MIME type detected for the file. -/
def CreateExtractorFromPath (detectFile : String → Except String String)
    (filePath : String) : Except GoError ExtractorKind :=
  match detectFile filePath with
  | .error err => .error (.errorf ("failed to detect file type: " ++ err))
  | .ok mimeType =>
    if mimeType ≠ "unknown" then
      if mimeType = "application/pdf" then .ok .PDF
      else if mimeType =
          "application/vnd.openxmlformats-officedocument.wordprocessingml.document" then
        .ok .DOCX
      else if mimeType = "application/msword" then .ok .LegacyDOC
      else if mimeType =
          "application/vnd.openxmlformats-officedocument.spreadsheetml.sheet" then
        .ok .XLSX
      else if mimeType = "application/vnd.ms-excel" then .ok .LegacyXLS
      else if mimeType =
          "application/vnd.openxmlformats-officedocument.presentationml.presentation" then
        .ok .PPTX
      else if mimeType = "application/vnd.ms-powerpoint" then .ok .LegacyPPT
      else if hasPrefixStr mimeType "text/" then .ok .PlainText
      else .error (.errorf ("unsupported file type " ++ mimeType ++ " for " ++ filePath))
    else .error (.errorf ("unknown file type for: " ++ filePath))

/-- The choice that the specification prescribes for a detected MIME type:
the extractor variant, or `none` for an error. -/
def specChoice (mimeType : String) : Option ExtractorKind :=
  if mimeType = "application/pdf" then some .PDF
  else if mimeType =
      "application/vnd.openxmlformats-officedocument.wordprocessingml.document" then
    some .DOCX
  else if mimeType =
      "application/vnd.openxmlformats-officedocument.spreadsheetml.sheet" then
    some .XLSX
  else if mimeType =
      "application/vnd.openxmlformats-officedocument.presentationml.presentation" then
    some .PPTX
  else if mimeType = "application/msword" then some .LegacyDOC
  else if mimeType = "application/vnd.ms-excel" then some .LegacyXLS
  else if mimeType = "application/vnd.ms-powerpoint" then some .LegacyPPT
  else if hasPrefixStr mimeType "text/" then some .PlainText
  else none

/-! ## The legacy stubs (`pkg/extractor/legacy_office.go`) -/

/-- The function `LegacyDOCExtractor.Extract`; the body makes no call on the
stream `_reader`. -/
def LegacyDOCExtractor.Extract (_reader : Reader) (_options : ExtractOptions) :
    Except GoError ExtractResult :=
  .error (.errorf "legacy DOC format is not supported: DOC files use a proprietary binary format that requires specialized libraries. Please convert to DOCX format for text extraction")

/-- The function `LegacyDOCExtractor.ExtractFromFile`; `Base` stands for
`filepath.Base` and `_openFile` for the file system (`os.Open` on a path,
then the stream of the file), which the body does not call. -/
def LegacyDOCExtractor.ExtractFromFile (Base : String → String)
    (_openFile : String → Reader) (filePath : String) (_options : ExtractOptions) :
    Except GoError ExtractResult :=
  .error (.errorf ("legacy DOC format is not supported: " ++ Base filePath ++
    " uses a proprietary binary format. Please convert to DOCX format for text extraction"))

/-- The function `LegacyXLSExtractor.Extract`. -/
def LegacyXLSExtractor.Extract (_reader : Reader) (_options : ExtractOptions) :
    Except GoError ExtractResult :=
  .error (.errorf "legacy XLS format is not supported: XLS files use a proprietary binary format that requires specialized libraries. Please convert to XLSX format for text extraction")

/-- The function `LegacyXLSExtractor.ExtractFromFile`. -/
def LegacyXLSExtractor.ExtractFromFile (Base : String → String)
    (_openFile : String → Reader) (filePath : String) (_options : ExtractOptions) :
    Except GoError ExtractResult :=
  .error (.errorf ("legacy XLS format is not supported: " ++ Base filePath ++
    " uses a proprietary binary format. Please convert to XLSX format for text extraction"))

/-- The function `LegacyPPTExtractor.Extract`. -/
def LegacyPPTExtractor.Extract (_reader : Reader) (_options : ExtractOptions) :
    Except GoError ExtractResult :=
  .error (.errorf "legacy PPT format is not supported: PPT files use a proprietary binary format that requires specialized libraries. Please convert to PPTX format for text extraction")

/-- The function `LegacyPPTExtractor.ExtractFromFile`. -/
def LegacyPPTExtractor.ExtractFromFile (Base : String → String)
    (_openFile : String → Reader) (filePath : String) (_options : ExtractOptions) :
    Except GoError ExtractResult :=
  .error (.errorf ("legacy PPT format is not supported: " ++ Base filePath ++
    " uses a proprietary binary format. Please convert to PPTX format for text extraction"))

/-- The message of an error contains the text `sub`. -/
def messageContains (err : GoError) (sub : String) : Prop :=
  match err with
  | .errorf msg => ∃ pre post : String, msg = pre ++ sub ++ post
  | .extractor e => ∃ pre post : String, e.Message = pre ++ sub ++ post

/-! ## Specification-side definitions for line endings and slide paths -/

/-- The single left-to-right scan of the specification: every `\r\n` pair
becomes one `\n`, every remaining `\r` becomes `\n`. -/
def scanLineEndings : Bytes → Bytes
  | [] => []
  | b :: t =>
    let rest := scanLineEndings t
    if b = 13 then
      match t with
      | [] => 10 :: rest
      | c :: t2 => if c = 10 then 10 :: scanLineEndings t2 else 10 :: rest
    else b :: rest

/-- A decimal digit `0`..`9`. -/
def isDigit (b : Nat) : Bool := 48 ≤ b && b ≤ 57

/-- The slide-part naming convention of the specification: the fixed prefix
`ppt/slides/slide`, a numeric suffix (one or more decimal digits) and `.xml`. -/
def numberedSlidePath (name : Bytes) : Bool :=
  HasPrefix name (ascii "ppt/slides/slide") &&
  ((name.drop 16).takeWhile isDigit != []) &&
  ((name.drop 16).dropWhile isDigit == ascii ".xml")

/-! ## The image extractor (`pkg/extractor/image.go`) -/

/-- The type `ImageExtractor`. -/
structure ImageExtractor where
  MaxFileSize : Int
  deriving DecidableEq

/-- The function `NewImageExtractor`. -/
def NewImageExtractor : ImageExtractor := { MaxFileSize := 50 * 1024 * 1024 }

/-- Go `strings.Contains` on the option string, for an ASCII `sub`. -/
def containsStr (s sub : String) : Bool :=
  s.toList.tails.any (fun t => sub.toList.isPrefixOf t)

/-- What `image.Decode` delivers to the extractor: the format label and the
width and height of the bounds. -/
structure DecodedImage where
  format : String
  width : Int
  height : Int
  deriving DecidableEq

/-- The function `ImageExtractor.extractFromContent`, without the wall-clock
argument `start`.  `decodeImage` stands for `image.Decode`, `toLower` for
`strings.ToLower` and `now` for `time.Now().Format(time.RFC3339)`. -/
def ImageExtractor.extractFromContent (e : ImageExtractor)
    (decodeImage : Bytes → Except String DecodedImage) (toLower : String → String)
    (now : String) (content : Bytes) (options : ExtractOptions) :
    Except GoError ExtractResult :=
  if content.length = 0 then
    .ok { Text := [], Metadata := [("error", .str "empty content")], FileType := "image" }
  else
    let maxSize := if options.MaxFileSize > 0 then options.MaxFileSize else e.MaxFileSize
    if maxSize > 0 ∧ (content.length : Int) > maxSize then
      .ok { Text := [], Metadata := [("error", .str "file too large")], FileType := "image" }
    else
      match decodeImage content with
      | .error _ =>
        .ok { Text := [], Metadata := [("error", .str "invalid image format")],
              FileType := "image" }
      | .ok img =>
        let placeholderText :=
          if containsStr (toLower options.FileType) "sample" then ascii "A picture sample"
          else ascii "[Image content detected - OCR not implemented]"
        .ok { Text := placeholderText
              FileType := "image"
              Metadata := [("image_format", .str img.format),
                           ("width", .int img.width),
                           ("height", .int img.height),
                           ("file_size", .int content.length),
                           ("text_length", .int placeholderText.length),
                           ("extracted_at", .str now),
                           ("note", .str "Pure Go implementation - basic image analysis only")] }

/-- The effective size cap in the words of the specification:
`options.MaxFileSize` if positive, else the extractor's own `MaxFileSize`. -/
def effectiveCap (e : ImageExtractor) (options : ExtractOptions) : Int :=
  if options.MaxFileSize > 0 then options.MaxFileSize else e.MaxFileSize

/-! ## Markdown stripping (`extractor/plaintext.go`) -/

/-- Go `strings.TrimLeft(s, cutset)` for an ASCII `cutset`. -/
def TrimLeft (s cutset : Bytes) : Bytes :=
  s.dropWhile (fun b => cutset.contains b)

/-- The body of the loop of `stripMarkdownSyntax`, for one line. -/
def stripLine (line : Bytes) : Bytes :=
  let line := TrimLeft line (ascii "# ")
  let line := ReplaceAll line (ascii "**") []
  let line := ReplaceAll line (ascii "__") []
  let line := ReplaceAll line (ascii "*") []
  let line := ReplaceAll line (ascii "_") []
  let line := ReplaceAll line (ascii "`") []
  TrimLeft line (ascii "- + ")

/-- The function `MarkdownExtractor.stripMarkdownSyntax`. -/
def stripMarkdownSyntax (text : Bytes) : Bytes :=
  let lines := Split 10 text
  let cleanLines := lines.map stripLine
  Join cleanLines (ascii "\n")

/-! ## Markdown metadata (`extractor/plaintext.go`) -/

/-- The loop of `countHeadings` over the lines. -/
def countHeadingsLoop : List Bytes → Nat
  | [] => 0
  | line :: rest =>
    if HasPrefix (TrimSpace line) (ascii "#") then 1 + countHeadingsLoop rest
    else countHeadingsLoop rest

/-- The function `MarkdownExtractor.countHeadings`. -/
def countHeadings (text : Bytes) : Nat :=
  countHeadingsLoop (Split 10 text)

/-- The loop of `countLinks`, on the variables `inLink`, `inURL` and `count`.
The `range` loop visits the runes of the text; only the ASCII bytes `[`, `]`
and `)` have a case, and the byte `text[i+1]` after a `]` is the head of the
rest of the text. -/
def countLinksLoop : Bytes → Bool → Bool → Nat → Nat
  | [], _, _, count => count
  | char :: rest, inLink, inURL, count =>
    if char = 91 then
      if !inLink && !inURL then countLinksLoop rest true inURL count
      else countLinksLoop rest inLink inURL count
    else if char = 93 then
      if inLink && rest.head? == some 40 then countLinksLoop rest false true count
      else countLinksLoop rest inLink inURL count
    else if char = 41 then
      if inURL then countLinksLoop rest inLink false (count + 1)
      else countLinksLoop rest inLink inURL count
    else countLinksLoop rest inLink inURL count

/-- The function `MarkdownExtractor.countLinks`. -/
def countLinks (text : Bytes) : Nat :=
  countLinksLoop text false false 0

/-- The function `MarkdownExtractor.Extract`. -/
def MarkdownExtractor.Extract (decode : Encoding → Bytes → Option Bytes)
    (reader : Reader) (options : ExtractOptions) : Except GoError ExtractResult :=
  match PlainTextExtractor.Extract decode reader options with
  | .error err => .error err
  | .ok result =>
    let text :=
      if !options.PreserveFormatting then stripMarkdownSyntax result.Text else result.Text
    .ok { Text := text
          Metadata :=
            (result.Metadata.set "heading_count" (.int (countHeadings text))).set
              "link_count" (.int (countLinks text))
          FileType := "markdown" }

/-- A well-formed link `[t](u)`. -/
def linkText (t u : Bytes) : Bytes :=
  ascii "[" ++ t ++ ascii "](" ++ u ++ ascii ")"

/-- A text made of links: the filler `first`, then each link `[t](u)` followed
by its filler. -/
def linksText (first : Bytes) (links : List (Bytes × Bytes × Bytes)) : Bytes :=
  first ++ (links.map (fun l => linkText l.1 l.2.1 ++ l.2.2)).flatten

/-- A text that holds none of the four characters `[`, `]`, `(`, `)`. -/
def noBrackets (s : Bytes) : Prop :=
  91 ∉ s ∧ 93 ∉ s ∧ 40 ∉ s ∧ 41 ∉ s

instance (s : Bytes) : Decidable (noBrackets s) := by
  unfold noBrackets; infer_instance

/-- The number of lines whose trimmed form starts with `#`, in the words of
the specification. -/
def headingLines (text : Bytes) : Nat :=
  ((Split 10 text).filter (fun line => HasPrefix (TrimSpace line) (ascii "#"))).length

/-- Every `#` of the text lies in the leading run of `#` and space characters
of its line; `lead` tells whether the text starts inside such a run. -/
def hashesLead : Bool → Bytes → Bool
  | _, [] => true
  | lead, b :: t =>
    if b = 10 then hashesLead true t
    else if b = 35 then lead && hashesLead lead t
    else if b = 32 then hashesLead lead t
    else hashesLead false t

/-! ## PPTX extraction (`pkg/extractor/pptx.go`) -/

/-- The function `PPTXExtractor.Extract`; the options are not used. -/
def PPTXExtractor.Extract (zipNewReader : Bytes → Option (List ZipFile))
    (reader : Reader) (_options : ExtractOptions) : Except GoError ExtractResult :=
  match reader with
  | .error err => .error (.errorf ("failed to read PPTX content: " ++ err))
  | .ok content =>
    match extractTextFromPPTX zipNewReader content with
    | .error err => .error (.errorf ("failed to extract text from PPTX file: " ++ err))
    | .ok (extractedText, slideCount) =>
      .ok { Text := extractedText
            FileType := "pptx"
            Metadata :=
              Metadata.set
                (Metadata.set (Metadata.set [] "slides" (.str (Itoa slideCount)))
                  "characters" (.str (Itoa extractedText.length)))
                "line_count" (.str (Itoa (Count extractedText 10 + 1))) }

/-! ## The shape of the OOXML parts covered by the recovery theorems -/

/-- Go `strings.Contains(s, substr)`. -/
def Contains : Bytes → Bytes → Bool
  | [], substr => substr.isPrefixOf []
  | b :: t, substr => substr.isPrefixOf (b :: t) || Contains t substr

/-- The attribute string of an opening tag `<name attrs>`: without `>`, empty
or led by white space (the tag names the element `name`, not a longer name
such as `w:pPr`), and not ending with `/` (the tag is not self-closing). -/
def isTagAttrs (attrs : Bytes) : Bool :=
  !attrs.contains 62 &&
    (match attrs with
     | [] => true
     | b :: _ => b == 32 || b == 9 || b == 10 || b == 13) &&
    attrs.getLast? != some 47

/-- A text element `<x:t attrs>text</x:t>` of a part, with the markup `after`
that follows it up to the next text element (or to the end of the paragraph
or slide). -/
structure TextElem where
  attrs : Bytes
  text : Bytes
  after : Bytes
  deriving DecidableEq

/-- The bytes of a text element and of the markup that follows it, for the
opening literal `openTag` (`<w:t` or `<a:t`) and the closing tag `closeTag`. -/
def TextElem.xml (openTag closeTag : Bytes) (e : TextElem) : Bytes :=
  openTag ++ e.attrs ++ ascii ">" ++ e.text ++ closeTag ++ e.after

/-- Markup `before`, then the text elements, each with the markup after it. -/
def runsXML (openTag closeTag before : Bytes) (elems : List TextElem) : Bytes :=
  before ++ (elems.map (TextElem.xml openTag closeTag)).flatten

/-- The conditions on a sequence of text elements: the markup around them
does not hold the opening literal; the opening tags are plain; no text holds
`<`. -/
def wellFormedRuns (openTag before : Bytes) (elems : List TextElem) : Prop :=
  Contains before openTag = false ∧
    ∀ e ∈ elems, isTagAttrs e.attrs = true ∧ 60 ∉ e.text ∧ Contains e.after openTag = false

instance (openTag before : Bytes) (elems : List TextElem) :
    Decidable (wellFormedRuns openTag before elems) := by
  unfold wellFormedRuns; infer_instance

/-- A paragraph element `<w:p attrs>body</w:p>` written with an opening and a
closing tag, with the markup `after` that follows it up to the next paragraph
element.  The body is the markup `before` followed by the text elements. -/
structure Paragraph where
  attrs : Bytes
  before : Bytes
  elems : List TextElem
  after : Bytes
  deriving DecidableEq

/-- The content of a paragraph element, between its two tags. -/
def Paragraph.body (p : Paragraph) : Bytes :=
  runsXML (ascii "<w:t") (ascii "</w:t>") p.before p.elems

/-- The bytes of a paragraph element and of the markup that follows it. -/
def Paragraph.xml (p : Paragraph) : Bytes :=
  ascii "<w:p" ++ p.attrs ++ ascii ">" ++ p.body ++ ascii "</w:p>" ++ p.after

/-- The text of a paragraph: its runs concatenated in order, no separator. -/
def Paragraph.text (p : Paragraph) : Bytes :=
  (p.elems.map (fun e => e.text)).flatten

/-- The conditions on a paragraph element: a plain opening tag; a body on one
line that does not hold `</w:p>`; well-formed text elements; no `<w:p` in the
markup after the element. -/
def Paragraph.wellFormed (p : Paragraph) : Prop :=
  isTagAttrs p.attrs = true ∧ 10 ∉ p.body ∧ Contains p.body (ascii "</w:p>") = false ∧
    wellFormedRuns (ascii "<w:t") p.before p.elems ∧
    Contains p.after (ascii "<w:p") = false

instance (p : Paragraph) : Decidable p.wellFormed := by
  unfold Paragraph.wellFormed; infer_instance

/-- A document part: the markup `pre` before the first paragraph element, the
paragraph elements, each with the markup after it, and the closing markup
`post` of the part. -/
def documentPartXML (pre : Bytes) (paragraphs : List Paragraph) (post : Bytes) : Bytes :=
  pre ++ ((paragraphs.map Paragraph.xml).flatten ++ post)

/-- The conditions on a document part: no `<w:p` before the first paragraph
element, well-formed paragraph elements, no `</w:p>` in the closing markup. -/
def wellFormedDocument (pre : Bytes) (paragraphs : List Paragraph) (post : Bytes) : Prop :=
  Contains pre (ascii "<w:p") = false ∧ (∀ p ∈ paragraphs, p.wellFormed) ∧
    Contains post (ascii "</w:p>") = false

instance (pre : Bytes) (paragraphs : List Paragraph) (post : Bytes) :
    Decidable (wellFormedDocument pre paragraphs post) := by
  unfold wellFormedDocument; infer_instance

/-- A slide part: markup `before`, then the text elements `<a:t …>T</a:t>`,
each with the markup after it. -/
structure Slide where
  before : Bytes
  elems : List TextElem
  deriving DecidableEq

/-- The bytes of a slide part. -/
def Slide.xml (s : Slide) : Bytes :=
  runsXML (ascii "<a:t") (ascii "</a:t>") s.before s.elems

/-- The conditions on a slide part. -/
def Slide.wellFormed (s : Slide) : Prop :=
  wellFormedRuns (ascii "<a:t") s.before s.elems

instance (s : Slide) : Decidable s.wellFormed := by
  unfold Slide.wellFormed; infer_instance

/-- The slide-text block of a slide: the non-empty trimmed runs joined by
single spaces. -/
def Slide.block (s : Slide) : Bytes :=
  slideBlock (s.elems.map (fun e => e.text))

/-- The block a slide part contributes: that of the slide it holds, nothing
when the part cannot be read. -/
def partBlock (slideOf : ZipFile → Option Slide) (f : ZipFile) : Bytes :=
  match slideOf f with
  | none => []
  | some s => s.block

/-- A document part as a word processor writes it: an XML declaration and the
opening of `w:document` and `w:body`; a paragraph with attributes, paragraph
properties and two runs, the first with run properties and an attribute on
its text element; a second paragraph; section properties after it. -/
def sampleDocument : Bytes × List Paragraph × Bytes :=
  (ascii "<?xml version=\"1.0\"?>\n<w:document xmlns:w=\"urn:w\"><w:body>",
   [⟨ascii " w:rsidR=\"00A1\"", ascii "<w:pPr><w:jc w:val=\"left\"/></w:pPr><w:r><w:rPr><w:b/></w:rPr>",
      [⟨ascii " xml:space=\"preserve\"", ascii "Hello ", ascii "</w:r><w:r>"⟩,
       ⟨[], ascii "world", ascii "</w:r>"⟩], []⟩,
    ⟨[], ascii "<w:r>", [⟨[], ascii "b", ascii "</w:r>"⟩], ascii "<w:sectPr>"⟩],
   ascii "<w:pgSz w:w=\"1\"/></w:sectPr></w:body></w:document>")

/-- A slide part as a presentation program writes it: a title shape with one
run and a body shape with a blank run and a run with attributes. -/
def sampleSlide : Slide :=
  ⟨ascii "<p:sld><p:sp><p:txBody><a:p><a:r><a:rPr lang=\"en\"/>",
   [⟨[], ascii " Title ", ascii "</a:r></a:p></p:txBody></p:sp><p:sp><p:txBody><a:p><a:r>"⟩,
    ⟨[], ascii "  ", ascii "</a:r><a:r>"⟩,
    ⟨ascii " x=\"1\"", ascii "x", ascii "</a:r></a:p></p:txBody></p:sp></p:sld>"⟩]⟩

/-- A slide part without text. -/
def emptySlide : Slide := ⟨ascii "<p:sld><p:cSld/></p:sld>", []⟩

/-- An archive with three slide parts, the second without text and the third
unreadable, among other entries. -/
def sampleArchive : List ZipFile :=
  [⟨ascii "[Content_Types].xml", some (ascii "<Types/>")⟩,
   ⟨ascii "ppt/slides/slide1.xml", some sampleSlide.xml⟩,
   ⟨ascii "ppt/slides/slide2.xml", some emptySlide.xml⟩,
   ⟨ascii "ppt/slides/slide3.xml", none⟩,
   ⟨ascii "ppt/slides/slide4.xml", some (Slide.xml ⟨ascii "<p:sld>", [⟨[], ascii "c", ascii "</p:sld>"⟩]⟩)⟩]

/-- The slides held by the parts of `sampleArchive`. -/
def sampleSlideOf (f : ZipFile) : Option Slide :=
  if f.Name = ascii "ppt/slides/slide1.xml" then some sampleSlide
  else if f.Name = ascii "ppt/slides/slide2.xml" then some emptySlide
  else if f.Name = ascii "ppt/slides/slide4.xml" then
    some ⟨ascii "<p:sld>", [⟨[], ascii "c", ascii "</p:sld>"⟩]⟩
  else none

/-! ## Lemmas on the scanners -/

theorem findAllFrom_skip (m : Bytes → Option (Bytes × Bytes)) :
    ∀ (p r : Bytes) (k : Nat), p.length = k →
      findAllFrom m k (p ++ r) = findAllFrom m 0 r := by
  intro p
  induction p with
  | nil => intro r k h; simp at h; subst h; rfl
  | cons a p ih =>
    intro r k h
    cases k with
    | zero => simp at h
    | succ k =>
      simp only [List.length_cons, Nat.add_right_cancel_iff] at h
      simp only [List.cons_append, findAllFrom]
      exact ih r k h

theorem findAllFrom_match (m : Bytes → Option (Bytes × Bytes))
    (b : Nat) (p rest cap : Bytes) (h : m (b :: (p ++ rest)) = some (cap, rest)) :
    findAllFrom m 0 (b :: (p ++ rest)) = cap :: findAllFrom m 0 rest := by
  simp only [findAllFrom, h]
  congr 1
  apply findAllFrom_skip
  simp

theorem findAllFrom_nomatch (m : Bytes → Option (Bytes × Bytes))
    (b : Nat) (t : Bytes) (h : m (b :: t) = none) :
    findAllFrom m 0 (b :: t) = findAllFrom m 0 t := by
  simp only [findAllFrom, h]

theorem ascii_wp_open : ascii "<w:p" = [60, 119, 58, 112] := by decide
theorem ascii_wp_close : ascii "</w:p>" = [60, 47, 119, 58, 112, 62] := by decide
theorem ascii_wt_open : ascii "<w:t" = [60, 119, 58, 116] := by decide
theorem ascii_wt_close : ascii "</w:t>" = [60, 47, 119, 58, 116, 62] := by decide

theorem lazyDotUntil_cons (lit : Bytes) (b : Nat) (t : Bytes) :
    lazyDotUntil lit (b :: t) =
      if lit.isPrefixOf (b :: t) then some ([], (b :: t).drop lit.length)
      else if b = 10 then none
      else (lazyDotUntil lit t).map (fun p => (b :: p.1, p.2)) := by
  rw [lazyDotUntil]

theorem lazyDotUntil_close (lit r : Bytes) (h : lit ≠ []) :
    lazyDotUntil lit (lit ++ r) = some ([], r) := by
  cases lit with
  | nil => exact absurd rfl h
  | cons c l =>
    have hpre : (c :: l).isPrefixOf (c :: (l ++ r)) = true := by
      simp [List.isPrefixOf]
    rw [List.cons_append, lazyDotUntil_cons, hpre, if_pos rfl]
    simp

theorem takeWhile_ne_append (c : Nat) :
    ∀ (t r : Bytes), c ∉ t → (t ++ c :: r).takeWhile (fun b => b != c) = t := by
  intro t
  induction t with
  | nil => intro r _; simp
  | cons a t ih =>
    intro r h
    simp only [List.mem_cons, not_or] at h
    have ha : (a != c) = true := by simp; exact fun e => h.1 e.symm
    simp [List.takeWhile, ha, ih r h.2]

theorem dropWhile_ne_append (c : Nat) :
    ∀ (t r : Bytes), c ∉ t → (t ++ c :: r).dropWhile (fun b => b != c) = c :: r := by
  intro t
  induction t with
  | nil => intro r _; simp
  | cons a t ih =>
    intro r h
    simp only [List.mem_cons, not_or] at h
    have ha : (a != c) = true := by simp; exact fun e => h.1 e.symm
    simp [List.dropWhile, ha, ih r h.2]


theorem intercalate_cons_cons {α : Type} (sep x y : List α) (l : List (List α)) :
    sep.intercalate (x :: y :: l) = x ++ sep ++ sep.intercalate (y :: l) := by
  simp [List.intercalate, List.intersperse]

theorem intercalate_single {α : Type} (sep x : List α) :
    sep.intercalate [x] = x := by
  simp [List.intercalate, List.intersperse]

theorem writeParagraphs_eq :
    ∀ (ps : List Bytes) (i n : Nat), n = i + ps.length →
      writeParagraphs n i ps = Join (ps.map (fun p => (textRuns p).flatten)) [10] := by
  intro ps
  induction ps with
  | nil => intro i n _; rfl
  | cons p ps ih =>
    intro i n hn
    cases ps with
    | nil =>
      have : ¬ i < n - 1 := by simp at hn; omega
      simp [writeParagraphs, Join, this, intercalate_single]
    | cons q qs =>
      have hlt : i < n - 1 := by simp at hn; omega
      have ih2 := ih (i + 1) n (by simp at hn ⊢; omega)
      rw [writeParagraphs, ih2]
      simp [Join, hlt, intercalate_cons_cons]

/-! ## PPTX -/

theorem ascii_at_open : ascii "<a:t" = [60, 97, 58, 116] := by decide
theorem ascii_at_close : ascii "</a:t>" = [60, 47, 97, 58, 116, 62] := by decide

theorem textParts_eq (ms : List Bytes) :
    textParts ms = (ms.map TrimSpace).filter (fun t => t != []) := by
  induction ms with
  | nil => rfl
  | cons m ms ih =>
    by_cases hm : (TrimSpace m != []) = true
    · simp only [textParts, hm, if_true, List.map_cons, List.filter_cons, ih]
    · simp only [textParts, hm, if_false, List.map_cons, List.filter_cons, ih]

/-! ## UTF-8 validity -/

theorem utf8Valid_ascii (b0 : Nat) (r : Bytes) (h : b0 < 0x80) :
    utf8Valid (b0 :: r) = utf8Valid r := by
  conv_lhs => rw [utf8Valid.eq_def]
  simp only [h, if_true]

theorem utf8Valid_seq2 (b0 b1 : Nat) (r : Bytes) (h : seq2 b0 b1 = true) :
    utf8Valid (b0 :: b1 :: r) = utf8Valid r := by
  have h0 : ¬ b0 < 0x80 := by
    simp only [seq2, Bool.and_eq_true, decide_eq_true_eq] at h
    omega
  conv_lhs => rw [utf8Valid.eq_def]
  simp only [h0, if_false]
  simp only [h, if_true]

theorem utf8Valid_seq3 (b0 b1 b2 : Nat) (r : Bytes) (h : seq3 b0 b1 b2 = true) :
    utf8Valid (b0 :: b1 :: b2 :: r) = utf8Valid r := by
  have hb : 0xE0 ≤ b0 := by
    simp only [seq3, Bool.and_eq_true, decide_eq_true_eq] at h
    omega
  have h0 : ¬ b0 < 0x80 := by omega
  have h2 : seq2 b0 b1 = false := by
    simp only [seq2, Bool.and_eq_false_iff, decide_eq_false_iff_not]
    left; right; omega
  conv_lhs => rw [utf8Valid.eq_def]
  simp only [h0, if_false]
  simp only [h2, h, if_true, Bool.false_eq_true, if_false]

theorem utf8Valid_seq4 (b0 b1 b2 b3 : Nat) (r : Bytes) (h : seq4 b0 b1 b2 b3 = true) :
    utf8Valid (b0 :: b1 :: b2 :: b3 :: r) = utf8Valid r := by
  have hb : 0xF0 ≤ b0 := by
    simp only [seq4, Bool.and_eq_true, decide_eq_true_eq] at h
    omega
  have h0 : ¬ b0 < 0x80 := by omega
  have h2 : seq2 b0 b1 = false := by
    simp only [seq2, Bool.and_eq_false_iff, decide_eq_false_iff_not]
    left; right; omega
  have h3 : seq3 b0 b1 b2 = false := by
    simp only [seq3, Bool.and_eq_false_iff, decide_eq_false_iff_not]
    left; left; right; omega
  conv_lhs => rw [utf8Valid.eq_def]
  simp only [h0, if_false]
  simp only [h2, h3, h, if_true, Bool.false_eq_true, if_false]

theorem utf8Valid_replacement_append (x : Bytes) :
    utf8Valid (replacementLiteral ++ x) = utf8Valid x := by
  simp only [replacementLiteral, List.cons_append, List.nil_append]
  rw [utf8Valid_seq2 _ _ _ (by decide), utf8Valid_seq2 _ _ _ (by decide),
    utf8Valid_seq2 _ _ _ (by decide)]

theorem utf8Valid_dropped (invalid : Bool) (x : Bytes) (h : utf8Valid x = true) :
    utf8Valid ((if invalid then [] else replacementLiteral) ++ x) = true := by
  cases invalid
  · simpa [utf8Valid_replacement_append] using h
  · simpa using h

/-- The output of the replacement loop is valid UTF-8. -/
theorem utf8Valid_toValidLoop (invalid : Bool) (s : Bytes) :
    utf8Valid (toValidLoop replacementLiteral invalid s) = true := by
  induction invalid, s using toValidLoop.induct replacementLiteral with
  | case1 => simp [toValidLoop, utf8Valid]
  | case2 invalid b0 r0 h _ ih =>
    rw [toValidLoop.eq_def]; simp only [h, if_true]
    rw [utf8Valid_ascii _ _ h]; exact ih
  | case3 invalid b0 h ih =>
    rw [toValidLoop.eq_def]; simp only [h, if_false]
    exact utf8Valid_dropped _ _ ih
  | case4 invalid b0 h b1 r1 h2 _ ih =>
    rw [toValidLoop.eq_def]; simp only [h, if_false, h2, if_true]
    rw [utf8Valid_seq2 _ _ _ h2]; exact ih
  | case5 invalid b0 h b1 h2 ih =>
    rw [toValidLoop.eq_def]; simp only [h, if_false, h2]
    exact utf8Valid_dropped _ _ ih
  | case6 invalid b0 h b1 h2 b2 r2 h3 _ ih =>
    rw [toValidLoop.eq_def]; simp only [h, if_false, h2, h3, if_true, Bool.false_eq_true]
    rw [utf8Valid_seq3 _ _ _ _ h3]; exact ih
  | case7 invalid b0 h b1 h2 b2 h3 ih =>
    rw [toValidLoop.eq_def]; simp only [h, if_false, h2, h3]
    exact utf8Valid_dropped _ _ ih
  | case8 invalid b0 h b1 h2 b2 h3 b3 r3 h4 _ ih =>
    rw [toValidLoop.eq_def]; simp only [h, if_false, h2, h3, h4, if_true, Bool.false_eq_true]
    rw [utf8Valid_seq4 _ _ _ _ _ h4]; exact ih
  | case9 invalid b0 h b1 h2 b2 h3 b3 r3 h4 ih =>
    rw [toValidLoop.eq_def]; simp only [h, if_false, h2, h3, h4]
    exact utf8Valid_dropped _ _ ih

theorem tryEncodings_valid (decode : Encoding → Bytes → Option Bytes) (content : Bytes) :
    ∀ (encs : List (String × Encoding)) (result : Bytes) (name : String),
      tryEncodings decode content encs = some (result, name) → utf8Valid result = true := by
  intro encs
  induction encs with
  | nil => intro result name h; simp [tryEncodings] at h
  | cons enc rest ih =>
    intro result name h
    rw [tryEncodings] at h
    cases hd : decode enc.2 content with
    | none => rw [hd] at h; exact ih result name h
    | some r =>
      rw [hd] at h
      by_cases hv : utf8Valid r = true
      · simp only [hv, if_true, Option.some.injEq, Prod.mk.injEq] at h
        rw [← h.1]; exact hv
      · simp only [hv, if_false] at h
        exact ih result name h

/-! ## Line endings -/

theorem ascii_crlf : ascii "\r\n" = [13, 10] := by decide
theorem ascii_cr : ascii "\r" = [13] := by decide
theorem ascii_lf : ascii "\n" = [10] := by decide

theorem replaceFrom_absent (c : Nat) (l new : Bytes) :
    ∀ (s : Bytes), c ∉ s → replaceFrom (c :: l) new 0 s = s := by
  intro s
  induction s with
  | nil => intro _; rfl
  | cons b t ih =>
    intro h
    simp only [List.mem_cons, not_or] at h
    have hpre : (c :: l).isPrefixOf (b :: t) = false := by
      simp [List.isPrefixOf, h.1]
    rw [replaceFrom, hpre, ih h.2]
    simp

theorem replaceFrom_single_not_mem (c d : Nat) (hd : d ≠ c) :
    ∀ (s : Bytes), c ∉ replaceFrom [c] [d] 0 s := by
  intro s
  induction s with
  | nil => simp [replaceFrom]
  | cons b t ih =>
    rw [replaceFrom]
    by_cases hb : c = b
    · have hpre : [c].isPrefixOf (b :: t) = true := by simp [List.isPrefixOf, hb]
      simp only [hpre, if_true, List.length_singleton, Nat.sub_self, List.singleton_append,
        List.mem_cons, not_or]
      exact ⟨fun e => hd e.symm, ih⟩
    · have hpre : [c].isPrefixOf (b :: t) = false := by simp [List.isPrefixOf, hb]
      simp only [hpre, Bool.false_eq_true, if_false, List.mem_cons, not_or]
      exact ⟨hb, ih⟩

/-- The normalised text holds no carriage return. -/
theorem normalizeLineEndings_no_cr (text : Bytes) :
    13 ∉ PlainTextExtractor.normalizeLineEndings text := by
  simp only [PlainTextExtractor.normalizeLineEndings, ReplaceAll, ascii_cr, ascii_lf]
  exact replaceFrom_single_not_mem 13 10 (by decide) _

/-- A text without carriage return is left unchanged. -/
theorem normalizeLineEndings_fixed (text : Bytes) (h : 13 ∉ text) :
    PlainTextExtractor.normalizeLineEndings text = text := by
  simp only [PlainTextExtractor.normalizeLineEndings, ReplaceAll, ascii_cr, ascii_lf, ascii_crlf]
  rw [replaceFrom_absent 13 [10] [10] text h, replaceFrom_absent 13 [] [10] text h]

theorem pdf_normalizeLineEndings_eq (text : Bytes) :
    PDFExtractor.normalizeLineEndings text = PlainTextExtractor.normalizeLineEndings text := rfl

/-! ## The claims on the encoding normaliser and the line endings -/

/-- C3: valid UTF-8 input is returned unchanged by `detectAndConvertEncoding`,
labelled "UTF-8", with a nil error. -/
theorem detectAndConvertEncoding_valid (decode : Encoding → Bytes → Option Bytes)
    (content : Bytes) (h : utf8Valid content = true) :
    detectAndConvertEncoding decode content = (content, "UTF-8", none) := by
  simp only [detectAndConvertEncoding, h, if_true]

theorem detectAndConvertEncoding_valid_witness :
    utf8Valid [0x68, 0xC3, 0xA9] = true ∧
      detectAndConvertEncoding (fun _ _ => none) [0x68, 0xC3, 0xA9] =
        ([0x68, 0xC3, 0xA9], "UTF-8", none) :=
  ⟨by decide, detectAndConvertEncoding_valid _ _ (by decide)⟩

theorem detectAndConvertEncoding_nil (decode : Encoding → Bytes → Option Bytes)
    (content : Bytes) :
    ∃ text label, detectAndConvertEncoding decode content = (text, label, none) := by
  unfold detectAndConvertEncoding
  split
  · exact ⟨_, _, rfl⟩
  · split
    · exact ⟨_, _, rfl⟩
    · exact ⟨_, _, rfl⟩

/-- C4: `detectAndConvertEncoding` is total and its error is nil on every
input, whatever the candidate decoders return. -/
theorem detectAndConvertEncoding_never_fails (decode : Encoding → Bytes → Option Bytes)
    (content : Bytes) :
    ∃ text label, detectAndConvertEncoding decode content = (text, label, none) :=
  detectAndConvertEncoding_nil decode content

/-- C5: the text returned by `detectAndConvertEncoding` is valid UTF-8 in each
of its three branches. -/
theorem detectAndConvertEncoding_utf8 (decode : Encoding → Bytes → Option Bytes)
    (content : Bytes) :
    utf8Valid (detectAndConvertEncoding decode content).1 = true := by
  unfold detectAndConvertEncoding
  split
  · assumption
  · split
    · rename_i result name heq
      exact tryEncodings_valid decode content encodings result name heq
    · exact utf8Valid_toValidLoop false content

/-- C6: line-ending normalisation is idempotent, for the plain-text and for
the PDF copy of `normalizeLineEndings`. -/
theorem normalizeLineEndings_idempotent (t : Bytes) :
    PlainTextExtractor.normalizeLineEndings (PlainTextExtractor.normalizeLineEndings t) =
        PlainTextExtractor.normalizeLineEndings t ∧
      PDFExtractor.normalizeLineEndings (PDFExtractor.normalizeLineEndings t) =
        PDFExtractor.normalizeLineEndings t := by
  have h := normalizeLineEndings_fixed _ (normalizeLineEndings_no_cr t)
  exact ⟨h, by simpa only [pdf_normalizeLineEndings_eq] using h⟩

/-! ## The size check -/

/-- C7: with the stream read without error, `PlainTextExtractor.Extract` fails
with the `size_check` error exactly when `MaxFileSize > 0` and the raw byte
length exceeds `MaxFileSize`; the error is the same whatever the decoders do,
and in every other case the call succeeds. -/
theorem plainText_Extract_size_check (decode : Encoding → Bytes → Option Bytes)
    (content : Bytes) (options : ExtractOptions) :
    ((∃ e, PlainTextExtractor.Extract decode (.ok content) options = .error (.extractor e) ∧
          e.Operation = "size_check") ↔
        (options.MaxFileSize > 0 ∧ (content.length : Int) > options.MaxFileSize)) ∧
      ((options.MaxFileSize > 0 ∧ (content.length : Int) > options.MaxFileSize) →
        PlainTextExtractor.Extract decode (.ok content) options =
          .error (.extractor (NewExtractorError
            ("file size " ++ toString content.length ++ " exceeds limit " ++
              toString options.MaxFileSize) "plaintext" "size_check" none))) ∧
      (¬ (options.MaxFileSize > 0 ∧ (content.length : Int) > options.MaxFileSize) →
        ∃ result, PlainTextExtractor.Extract decode (.ok content) options = .ok result) := by
  have hpos : (options.MaxFileSize > 0 ∧ (content.length : Int) > options.MaxFileSize) →
      PlainTextExtractor.Extract decode (.ok content) options =
        .error (.extractor (NewExtractorError
          ("file size " ++ toString content.length ++ " exceeds limit " ++
            toString options.MaxFileSize) "plaintext" "size_check" none)) := by
    intro h
    simp only [PlainTextExtractor.Extract, h, and_self, if_true]
  have hneg : ¬ (options.MaxFileSize > 0 ∧ (content.length : Int) > options.MaxFileSize) →
      ∃ result, PlainTextExtractor.Extract decode (.ok content) options = .ok result := by
    intro h
    obtain ⟨text, label, hd⟩ := detectAndConvertEncoding_nil decode content
    simp only [PlainTextExtractor.Extract, h, if_false, hd]
    exact ⟨_, rfl⟩
  refine ⟨⟨?_, ?_⟩, hpos, hneg⟩
  · rintro ⟨e, he, _⟩
    by_contra hc
    obtain ⟨r, hr⟩ := hneg hc
    rw [hr] at he
    cases he
  · intro h
    exact ⟨_, hpos h, rfl⟩

theorem plainText_Extract_oversize (decode : Encoding → Bytes → Option Bytes)
    (content : Bytes) (options : ExtractOptions)
    (hpos : options.MaxFileSize > 0) (hlen : (content.length : Int) > options.MaxFileSize) :
    PlainTextExtractor.Extract decode (.ok content) options =
      .error (.extractor (NewExtractorError
        ("file size " ++ toString content.length ++ " exceeds limit " ++
          toString options.MaxFileSize) "plaintext" "size_check" none)) := by
  simp only [PlainTextExtractor.Extract, hpos, hlen, and_self, if_true]

/-- C8: for content longer than a positive `MaxFileSize`, `DOCXExtractor.Extract`
and `XLSXExtractor.Extract` return the size-check error of the embedded
plain-text extractor, whatever the archive reader, the workbook parser and the
temporary file would do: the archive is not consulted and no operation on a
temporary file is performed. -/
theorem docx_xlsx_Extract_oversize (decode : Encoding → Bytes → Option Bytes)
    (zipNewReader : Bytes → Option (List ZipFile)) (tmp : TempFile)
    (openFile : Bytes → Except String Workbook) (content : Bytes) (options : ExtractOptions)
    (hpos : options.MaxFileSize > 0) (hlen : (content.length : Int) > options.MaxFileSize) :
    DOCXExtractor.Extract decode zipNewReader (.ok content) options =
        .error (.extractor (NewExtractorError
          ("file size " ++ toString content.length ++ " exceeds limit " ++
            toString options.MaxFileSize) "plaintext" "size_check" none)) ∧
      XLSXExtractor.Extract decode tmp openFile (.ok content) options =
        ([], .error (.extractor (NewExtractorError
          ("file size " ++ toString content.length ++ " exceeds limit " ++
            toString options.MaxFileSize) "plaintext" "size_check" none))) := by
  have h := plainText_Extract_oversize decode content options hpos hlen
  constructor
  · simp only [DOCXExtractor.Extract, h]
  · simp only [XLSXExtractor.Extract, h]

theorem docx_xlsx_Extract_oversize_witness :
    ({ DefaultExtractOptions with MaxFileSize := 1 } : ExtractOptions).MaxFileSize > 0 ∧
    (((ascii "PK").length : Int) >
      ({ DefaultExtractOptions with MaxFileSize := 1 } : ExtractOptions).MaxFileSize) ∧
    DOCXExtractor.Extract (fun _ _ => none) (fun _ => some []) (.ok (ascii "PK"))
        { DefaultExtractOptions with MaxFileSize := 1 } =
      .error (.extractor (NewExtractorError "file size 2 exceeds limit 1"
        "plaintext" "size_check" none)) ∧
    XLSXExtractor.Extract (fun _ _ => none) ⟨none, none⟩ (fun _ => .ok []) (.ok (ascii "PK"))
        { DefaultExtractOptions with MaxFileSize := 1 } =
      ([], .error (.extractor (NewExtractorError "file size 2 exceeds limit 1"
        "plaintext" "size_check" none))) :=
  ⟨by decide, by decide,
    docx_xlsx_Extract_oversize (fun _ _ => none) (fun _ => some []) ⟨none, none⟩
      (fun _ => .ok []) (ascii "PK") { DefaultExtractOptions with MaxFileSize := 1 }
      (by decide) (by decide)⟩

/-! ## CSV header detection -/

/-- A decimal digit. -/
theorem contains_digits (b : Nat) :
    (ascii "0123456789").contains b = (decide (48 ≤ b) && decide (b ≤ 57)) := by
  have h : ascii "0123456789" = [48, 49, 50, 51, 52, 53, 54, 55, 56, 57] := by decide
  rw [h, Bool.eq_iff_iff]
  simp only [List.contains_eq_any_beq, List.any_cons, List.any_nil, Bool.or_false,
    Bool.or_eq_true, beq_iff_eq, Bool.and_eq_true, decide_eq_true_eq]
  omega

theorem isAsciiSpace_not_digit (b : Nat) (h : isAsciiSpace b = true) :
    (decide (48 ≤ b) && decide (b ≤ 57)) = false := by
  simp only [isAsciiSpace, Bool.or_eq_true, beq_iff_eq] at h
  simp only [Bool.and_eq_false_iff, decide_eq_false_iff_not]
  omega

theorem isSpace2_not_digit (b0 b1 : Nat) (h : isSpace2 b0 b1 = true) :
    (decide (48 ≤ b0) && decide (b0 ≤ 57)) = false ∧
      (decide (48 ≤ b1) && decide (b1 ≤ 57)) = false := by
  simp only [isSpace2, Bool.and_eq_true, Bool.or_eq_true, beq_iff_eq] at h
  simp only [Bool.and_eq_false_iff, decide_eq_false_iff_not]
  omega

theorem isSpace3_not_digit (b0 b1 b2 : Nat) (h : isSpace3 b0 b1 b2 = true) :
    (decide (48 ≤ b0) && decide (b0 ≤ 57)) = false ∧
      (decide (48 ≤ b1) && decide (b1 ≤ 57)) = false ∧
      (decide (48 ≤ b2) && decide (b2 ≤ 57)) = false := by
  simp only [isSpace3, Bool.and_eq_true, Bool.or_eq_true, beq_iff_eq, decide_eq_true_eq] at h
  simp only [Bool.and_eq_false_iff, decide_eq_false_iff_not]
  omega

theorem any_digit_trimLeftSpace (s : Bytes) :
    (trimLeftSpace s).any (fun b => decide (48 ≤ b) && decide (b ≤ 57)) =
      s.any (fun b => decide (48 ≤ b) && decide (b ≤ 57)) := by
  induction s using trimLeftSpace.induct with
  | case1 => rfl
  | case2 b0 r0 h ih =>
    rw [trimLeftSpace.eq_def]; simp only [h, if_true]
    rw [ih, List.any_cons, isAsciiSpace_not_digit b0 h, Bool.false_or]
  | case3 b0 h =>
    rw [trimLeftSpace.eq_def]; simp only [h, if_false, Bool.false_eq_true]
  | case4 b0 h b1 r1 h2 ih =>
    rw [trimLeftSpace.eq_def]; simp only [h, if_false, h2, if_true, Bool.false_eq_true]
    rw [ih, List.any_cons, List.any_cons, (isSpace2_not_digit b0 b1 h2).1,
      (isSpace2_not_digit b0 b1 h2).2, Bool.false_or, Bool.false_or]
  | case5 b0 h b1 h2 =>
    rw [trimLeftSpace.eq_def]; simp only [h, if_false, h2, Bool.false_eq_true]
  | case6 b0 h b1 h2 b2 r2 h3 ih =>
    rw [trimLeftSpace.eq_def]; simp only [h, if_false, h2, h3, if_true, Bool.false_eq_true]
    rw [ih, List.any_cons, List.any_cons, List.any_cons, (isSpace3_not_digit b0 b1 b2 h3).1,
      (isSpace3_not_digit b0 b1 b2 h3).2.1, (isSpace3_not_digit b0 b1 b2 h3).2.2,
      Bool.false_or, Bool.false_or, Bool.false_or]
  | case7 b0 h b1 h2 b2 r2 h3 =>
    rw [trimLeftSpace.eq_def]; simp only [h, if_false, h2, h3, Bool.false_eq_true]

theorem any_digit_trimLeftSpaceRev (s : Bytes) :
    (trimLeftSpaceRev s).any (fun b => decide (48 ≤ b) && decide (b ≤ 57)) =
      s.any (fun b => decide (48 ≤ b) && decide (b ≤ 57)) := by
  induction s using trimLeftSpaceRev.induct with
  | case1 => rfl
  | case2 b0 r0 h ih =>
    rw [trimLeftSpaceRev.eq_def]; simp only [h, if_true]
    rw [ih, List.any_cons, isAsciiSpace_not_digit b0 h, Bool.false_or]
  | case3 b0 h =>
    rw [trimLeftSpaceRev.eq_def]; simp only [h, if_false, Bool.false_eq_true]
  | case4 b0 h b1 r1 h2 ih =>
    rw [trimLeftSpaceRev.eq_def]; simp only [h, if_false, h2, if_true, Bool.false_eq_true]
    rw [ih, List.any_cons, List.any_cons, (isSpace2_not_digit b1 b0 h2).1,
      (isSpace2_not_digit b1 b0 h2).2, Bool.false_or, Bool.false_or]
  | case5 b0 h b1 h2 =>
    rw [trimLeftSpaceRev.eq_def]; simp only [h, if_false, h2, Bool.false_eq_true]
  | case6 b0 h b1 h2 b2 r2 h3 ih =>
    rw [trimLeftSpaceRev.eq_def]; simp only [h, if_false, h2, h3, if_true, Bool.false_eq_true]
    rw [ih, List.any_cons, List.any_cons, List.any_cons, (isSpace3_not_digit b2 b1 b0 h3).1,
      (isSpace3_not_digit b2 b1 b0 h3).2.1, (isSpace3_not_digit b2 b1 b0 h3).2.2,
      Bool.false_or, Bool.false_or, Bool.false_or]
  | case7 b0 h b1 h2 b2 r2 h3 =>
    rw [trimLeftSpaceRev.eq_def]; simp only [h, if_false, h2, h3, Bool.false_eq_true]

theorem any_reverse_eq (p : Nat → Bool) (s : Bytes) : s.reverse.any p = s.any p := by
  rw [Bool.eq_iff_iff]
  simp only [List.any_eq_true, List.mem_reverse]

theorem any_digit_TrimSpace (s : Bytes) :
    (TrimSpace s).any (fun b => decide (48 ≤ b) && decide (b ≤ 57)) =
      s.any (fun b => decide (48 ≤ b) && decide (b ≤ 57)) := by
  simp only [TrimSpace, trimRightSpace]
  rw [any_reverse_eq, any_digit_trimLeftSpaceRev, any_reverse_eq, any_digit_trimLeftSpace]

theorem countNumbersLoop_eq (fields : List Bytes) :
    countNumbersLoop fields =
      (fields.filter (fun field => field.any (fun b => decide (48 ≤ b) && decide (b ≤ 57)))).length := by
  induction fields with
  | nil => rfl
  | cons f fs ih =>
    have hc : ContainsAny (TrimSpace f) (ascii "0123456789") =
        f.any (fun b => decide (48 ≤ b) && decide (b ≤ 57)) := by
      simp only [ContainsAny, contains_digits]
      exact any_digit_TrimSpace f
    rw [countNumbersLoop, hc, List.filter_cons]
    by_cases hd : f.any (fun b => decide (48 ≤ b) && decide (b ≤ 57)) = true
    · have hne : (TrimSpace f != []) = true := by
        rw [← any_digit_TrimSpace] at hd
        cases ht : TrimSpace f with
        | nil => rw [ht] at hd; simp at hd
        | cons a l => rfl
      simp only [hne, hd, if_true, ih, List.length_cons]
      omega
    · simp only [hd, if_false, ih, Bool.false_eq_true]
      split <;> rfl

theorem countNumbers_eq_digitFields (row : Bytes) : countNumbers row = digitFields row := by
  simp only [countNumbers, digitFields, countNumbersLoop_eq]

/-- C9: `detectCSVHeader` is true exactly when there are at least two lines and
the first has strictly fewer digit-holding comma-separated fields than the
second; the rows "a,b,c" and "1,2,3" give true, and two leading rows with
equal counts give false. -/
theorem detectCSVHeader_iff :
    (∀ lines : List Bytes, detectCSVHeader lines = true ↔
      (2 ≤ lines.length ∧ digitFields (lines.getD 0 []) < digitFields (lines.getD 1 []))) ∧
    detectCSVHeader [ascii "a,b,c", ascii "1,2,3"] = true ∧
    (∀ (line0 line1 : Bytes) (rest : List Bytes), digitFields line0 = digitFields line1 →
      detectCSVHeader (line0 :: line1 :: rest) = false) := by
  refine ⟨?_, by decide, ?_⟩
  · intro lines
    match lines with
    | [] => simp [detectCSVHeader]
    | [_] => simp [detectCSVHeader]
    | l0 :: l1 :: rest =>
      simp [detectCSVHeader, countNumbers_eq_digitFields]
  · intro l0 l1 rest h
    simp [detectCSVHeader, countNumbers_eq_digitFields, h]

/-! ## Witnesses and counterexamples of the OOXML claims -/

theorem extractPageText_eq (texts : List Bytes) :
    extractPageText texts = TrimSpace texts.flatten := by
  cases texts with
  | nil => rfl
  | cons a l => rfl

/-- C10 (amended): for a one-page PDF whose page is not null and yields the
fragments `f1..fn`, PDF extraction succeeds with `page_count = 1` and returns
`strings.TrimSpace` of the fragments concatenated in order, nothing inserted
between them, with line endings normalised unless `PreserveFormatting`. -/
theorem pdf_Extract_one_page (pdfOpen : Bytes → Except String (List PDFPage))
    (content : Bytes) (options : ExtractOptions) (texts : List Bytes)
    (hsize : ¬ (options.MaxFileSize > 0 ∧ (content.length : Int) > options.MaxFileSize))
    (hopen : pdfOpen content = .ok [some texts]) :
    ((PDFExtractor.Extract ⟨none, none⟩ pdfOpen (.ok content) options).2.toOption.map
        (fun r => r.Text)) =
      some (if options.PreserveFormatting then TrimSpace texts.flatten
            else PDFExtractor.normalizeLineEndings (TrimSpace texts.flatten)) ∧
    ((PDFExtractor.Extract ⟨none, none⟩ pdfOpen (.ok content) options).2.toOption.bind
        (fun r => r.Metadata.get "page_count")) = some (.int 1) := by
  simp only [PDFExtractor.Extract, hsize, if_false, hopen, pageLoop, extractPageText_eq,
    List.length_singleton, Nat.lt_irrefl, List.append_nil, Except.toOption, Option.map_some',
    Option.some_bind]
  constructor
  · cases options.PreserveFormatting <;> rfl
  · rfl

theorem pdf_Extract_one_page_witness :
    ¬ (DefaultExtractOptions.MaxFileSize > 0 ∧
        ((ascii "%PDF").length : Int) > DefaultExtractOptions.MaxFileSize) ∧
    ((PDFExtractor.Extract ⟨none, none⟩ (fun _ => .ok [some [ascii "Hello", ascii " world"]])
        (.ok (ascii "%PDF")) DefaultExtractOptions).2.toOption.map (fun r => r.Text)) =
      some (if DefaultExtractOptions.PreserveFormatting then
              TrimSpace [ascii "Hello", ascii " world"].flatten
            else PDFExtractor.normalizeLineEndings
              (TrimSpace [ascii "Hello", ascii " world"].flatten)) ∧
    ((PDFExtractor.Extract ⟨none, none⟩ (fun _ => .ok [some [ascii "Hello", ascii " world"]])
        (.ok (ascii "%PDF")) DefaultExtractOptions).2.toOption.bind
        (fun r => r.Metadata.get "page_count")) = some (.int 1) :=
  ⟨by decide,
    pdf_Extract_one_page (fun _ => .ok [some [ascii "Hello", ascii " world"]]) (ascii "%PDF")
      DefaultExtractOptions [ascii "Hello", ascii " world"] (by decide) rfl⟩

/-- C10 fails as stated: the fragments "Hello" and " world " are recovered as
"Hello world", without the final space; and with `PreserveFormatting = false`
the fragment "a\rb" is recovered as "a\nb". -/
theorem pdf_Extract_one_page_counterexample :
    ((PDFExtractor.Extract ⟨none, none⟩ (fun _ => .ok [some [ascii "Hello", ascii " world "]])
        (.ok (ascii "%PDF")) DefaultExtractOptions).2.toOption.map (fun r => r.Text)) ≠
        some [ascii "Hello", ascii " world "].flatten ∧
      ((PDFExtractor.Extract ⟨none, none⟩ (fun _ => .ok [some [ascii "a\rb"]])
        (.ok (ascii "%PDF")) DefaultExtractOptions).2.toOption.map (fun r => r.Text)) ≠
        some [ascii "a\rb"].flatten := by
  decide

/-! ## The factory -/

theorem specChoice_unknown : specChoice "unknown" = none := by decide

/-- C14: the factory's choice is a function of the detected MIME type alone and
is the one the specification lists; "unknown" gives the unknown-type error,
any other MIME type without an extractor the unsupported-type error, and no
MIME type gives the CSV, Markdown or Image extractor. -/
theorem CreateExtractorFromPath_choice (detectFile : String → Except String String)
    (filePath mimeType : String) (hd : detectFile filePath = .ok mimeType) :
    (CreateExtractorFromPath detectFile filePath).toOption = specChoice mimeType ∧
    (mimeType = "unknown" →
      CreateExtractorFromPath detectFile filePath =
        .error (.errorf ("unknown file type for: " ++ filePath))) ∧
    (mimeType ≠ "unknown" → specChoice mimeType = none →
      CreateExtractorFromPath detectFile filePath =
        .error (.errorf ("unsupported file type " ++ mimeType ++ " for " ++ filePath))) ∧
    CreateExtractorFromPath detectFile filePath ≠ .ok .CSV ∧
    CreateExtractorFromPath detectFile filePath ≠ .ok .Markdown ∧
    CreateExtractorFromPath detectFile filePath ≠ .ok .Image := by
  by_cases hu : mimeType = "unknown"
  · subst hu
    simp [CreateExtractorFromPath, hd, specChoice_unknown, Except.toOption]
  by_cases h1 : mimeType = "application/pdf"
  · subst h1
    simp [CreateExtractorFromPath, hd, specChoice, Except.toOption]
  by_cases h2 : mimeType =
      "application/vnd.openxmlformats-officedocument.wordprocessingml.document"
  · subst h2
    simp [CreateExtractorFromPath, hd, specChoice, Except.toOption]
  by_cases h3 : mimeType = "application/msword"
  · subst h3
    simp [CreateExtractorFromPath, hd, specChoice, Except.toOption]
  by_cases h4 : mimeType =
      "application/vnd.openxmlformats-officedocument.spreadsheetml.sheet"
  · subst h4
    simp [CreateExtractorFromPath, hd, specChoice, Except.toOption]
  by_cases h5 : mimeType = "application/vnd.ms-excel"
  · subst h5
    simp [CreateExtractorFromPath, hd, specChoice, Except.toOption]
  by_cases h6 : mimeType =
      "application/vnd.openxmlformats-officedocument.presentationml.presentation"
  · subst h6
    simp [CreateExtractorFromPath, hd, specChoice, Except.toOption]
  by_cases h7 : mimeType = "application/vnd.ms-powerpoint"
  · subst h7
    simp [CreateExtractorFromPath, hd, specChoice, Except.toOption]
  by_cases ht : hasPrefixStr mimeType "text/" = true
  · simp [CreateExtractorFromPath, hd, specChoice, Except.toOption, hu, h1, h2, h3, h4, h5, h6,
      h7, ht]
  · simp [CreateExtractorFromPath, hd, specChoice, Except.toOption, hu, h1, h2, h3, h4, h5, h6,
      h7, ht]

theorem CreateExtractorFromPath_choice_witness :
    (CreateExtractorFromPath (fun _ => .ok "text/csv") "data.csv").toOption =
        specChoice "text/csv" ∧
    ("text/csv" = "unknown" →
      CreateExtractorFromPath (fun _ => .ok "text/csv") "data.csv" =
        .error (.errorf ("unknown file type for: " ++ "data.csv"))) ∧
    ("text/csv" ≠ "unknown" → specChoice "text/csv" = none →
      CreateExtractorFromPath (fun _ => .ok "text/csv") "data.csv" =
        .error (.errorf ("unsupported file type " ++ "text/csv" ++ " for " ++ "data.csv"))) ∧
    CreateExtractorFromPath (fun _ => .ok "text/csv") "data.csv" ≠ .ok .CSV ∧
    CreateExtractorFromPath (fun _ => .ok "text/csv") "data.csv" ≠ .ok .Markdown ∧
    CreateExtractorFromPath (fun _ => .ok "text/csv") "data.csv" ≠ .ok .Image :=
  CreateExtractorFromPath_choice (fun _ => .ok "text/csv") "data.csv" "text/csv" rfl

/-! ## The legacy stubs -/

/-- C15: `Extract` and `ExtractFromFile` of the three legacy extractors return
an error and no result for every stream, path and options; the message of the
error names the modern equivalent format; and the input is not read: the very
same error is returned for any other stream `reader2`, any other content of
the file system `openFile2` and any other options. -/
theorem legacy_extractors_fail (Base : String → String) (reader reader2 : Reader)
    (openFile openFile2 : String → Reader) (filePath : String)
    (options options2 : ExtractOptions) :
    (∃ err, LegacyDOCExtractor.Extract reader options = .error err ∧
        messageContains err "DOCX" ∧
        LegacyDOCExtractor.Extract reader2 options2 = .error err) ∧
    (∃ err, LegacyDOCExtractor.ExtractFromFile Base openFile filePath options = .error err ∧
        messageContains err "DOCX" ∧
        LegacyDOCExtractor.ExtractFromFile Base openFile2 filePath options2 = .error err) ∧
    (∃ err, LegacyXLSExtractor.Extract reader options = .error err ∧
        messageContains err "XLSX" ∧
        LegacyXLSExtractor.Extract reader2 options2 = .error err) ∧
    (∃ err, LegacyXLSExtractor.ExtractFromFile Base openFile filePath options = .error err ∧
        messageContains err "XLSX" ∧
        LegacyXLSExtractor.ExtractFromFile Base openFile2 filePath options2 = .error err) ∧
    (∃ err, LegacyPPTExtractor.Extract reader options = .error err ∧
        messageContains err "PPTX" ∧
        LegacyPPTExtractor.Extract reader2 options2 = .error err) ∧
    (∃ err, LegacyPPTExtractor.ExtractFromFile Base openFile filePath options = .error err ∧
        messageContains err "PPTX" ∧
        LegacyPPTExtractor.ExtractFromFile Base openFile2 filePath options2 = .error err) := by
  refine ⟨⟨_, rfl, ?_, rfl⟩, ⟨_, rfl, ?_, rfl⟩, ⟨_, rfl, ?_, rfl⟩, ⟨_, rfl, ?_, rfl⟩,
    ⟨_, rfl, ?_, rfl⟩, ⟨_, rfl, ?_, rfl⟩⟩
  · exact ⟨"legacy DOC format is not supported: DOC files use a proprietary binary format that requires specialized libraries. Please convert to ",
      " format for text extraction", by rfl⟩
  · exact ⟨"legacy DOC format is not supported: " ++ Base filePath ++
        " uses a proprietary binary format. Please convert to ",
      " format for text extraction", by
        simp only [String.append_assoc]
        congr 2⟩
  · exact ⟨"legacy XLS format is not supported: XLS files use a proprietary binary format that requires specialized libraries. Please convert to ",
      " format for text extraction", by rfl⟩
  · exact ⟨"legacy XLS format is not supported: " ++ Base filePath ++
        " uses a proprietary binary format. Please convert to ",
      " format for text extraction", by
        simp only [String.append_assoc]
        congr 2⟩
  · exact ⟨"legacy PPT format is not supported: PPT files use a proprietary binary format that requires specialized libraries. Please convert to ",
      " format for text extraction", by rfl⟩
  · exact ⟨"legacy PPT format is not supported: " ++ Base filePath ++
        " uses a proprietary binary format. Please convert to ",
      " format for text extraction", by
        simp only [String.append_assoc]
        congr 2⟩

/-! ## Line endings as one scan -/

theorem replaceFrom_nil (old new : Bytes) (k : Nat) : replaceFrom old new k [] = [] := by
  cases k <;> rfl

theorem replaceFrom_zero_cons (old new : Bytes) (b : Nat) (t : Bytes) :
    replaceFrom old new 0 (b :: t) =
      if old.isPrefixOf (b :: t) then new ++ replaceFrom old new (old.length - 1) t
      else b :: replaceFrom old new 0 t := by
  rw [replaceFrom]

theorem replaceFrom_succ_cons (old new : Bytes) (k b : Nat) (t : Bytes) :
    replaceFrom old new (k + 1) (b :: t) = replaceFrom old new k t := by
  rw [replaceFrom]

theorem normalizeLineEndings_eq_scan (text : Bytes) :
    PlainTextExtractor.normalizeLineEndings text = scanLineEndings text := by
  simp only [PlainTextExtractor.normalizeLineEndings, ReplaceAll, ascii_cr, ascii_lf, ascii_crlf]
  induction text using scanLineEndings.induct with
  | case1 => rfl
  | case2 _ =>
    -- a final carriage return
    simp [replaceFrom_zero_cons, replaceFrom_nil, List.isPrefixOf, scanLineEndings]
  | case3 t2 _ ih =>
    -- the pair `\r\n`
    rw [scanLineEndings.eq_def]
    simp only [replaceFrom_zero_cons, List.isPrefixOf, beq_self_eq_true, Bool.and_self,
      if_true, List.length_cons, List.length_nil, List.singleton_append, Nat.reduceAdd,
      Nat.reduceSub, replaceFrom_succ_cons]
    simp [List.isPrefixOf, ih]
  | case4 c t2 hc ih =>
    -- a lone carriage return
    rw [scanLineEndings.eq_def]
    have hpre : [13, 10].isPrefixOf (13 :: c :: t2) = false := by
      simp [List.isPrefixOf]; exact fun e => hc e.symm
    rw [replaceFrom_zero_cons, hpre]
    simp only [Bool.false_eq_true, if_false]
    rw [replaceFrom_zero_cons]
    simp [List.isPrefixOf, hc, ih]
  | case5 b t hb ih =>
    rw [scanLineEndings.eq_def]
    have hpre : [13, 10].isPrefixOf (b :: t) = false := by
      simp [List.isPrefixOf]; intro e; exact absurd e.symm hb
    have hb2 : ¬ 13 = b := fun e => hb e.symm
    rw [replaceFrom_zero_cons, hpre]
    simp only [Bool.false_eq_true, if_false]
    rw [replaceFrom_zero_cons]
    simp [List.isPrefixOf, hb, hb2, ih]

/-- C17: `normalizeLineEndings` is the single left-to-right scan that turns
every `\r\n` pair into one `\n` and every remaining `\r` into `\n`; its result
holds no carriage return, and a text without carriage return is returned
unchanged. -/
theorem normalizeLineEndings_scan (text : Bytes) :
    PlainTextExtractor.normalizeLineEndings text = scanLineEndings text ∧
    13 ∉ PlainTextExtractor.normalizeLineEndings text ∧
    (13 ∉ text → PlainTextExtractor.normalizeLineEndings text = text) :=
  ⟨normalizeLineEndings_eq_scan text, normalizeLineEndings_no_cr text,
    normalizeLineEndings_fixed text⟩

/-! ## XLSX -/

theorem plainText_Extract_succeeds (decode : Encoding → Bytes → Option Bytes)
    (content : Bytes) (options : ExtractOptions)
    (h : ¬ (options.MaxFileSize > 0 ∧ (content.length : Int) > options.MaxFileSize)) :
    ∃ result, PlainTextExtractor.Extract decode (.ok content) options = .ok result := by
  obtain ⟨text, label, hd⟩ := detectAndConvertEncoding_nil decode content
  simp only [PlainTextExtractor.Extract, h, if_false, hd]
  exact ⟨_, rfl⟩

theorem forEachCell_text (cells : List Bytes) :
    ∀ st : XLSXState, (forEachCell cells st).extractedText =
      st.extractedText ++ (cells.map TrimSpace).flatten := by
  induction cells with
  | nil => intro st; simp [forEachCell]
  | cons c cs ih =>
    intro st
    rw [forEachCell, ih]
    by_cases hc : TrimSpace c = []
    · simp [hc]
    · simp [hc]

theorem forEachRow_text (rows : List (List Bytes)) :
    ∀ st : XLSXState, (forEachRow rows st).extractedText =
      st.extractedText ++ (rows.flatten.map TrimSpace).flatten := by
  induction rows with
  | nil => intro st; simp [forEachRow]
  | cons r rs ih =>
    intro st
    rw [forEachRow, ih, forEachCell_text]
    simp

theorem sheetLoop_text (wb : Workbook) :
    ∀ st : XLSXState, (sheetLoop wb st).extractedText =
      st.extractedText ++ (wb.flatten.flatten.map TrimSpace).flatten := by
  induction wb with
  | nil => intro st; simp [sheetLoop]
  | cons s ss ih =>
    intro st
    rw [sheetLoop, ih, forEachRow_text]
    simp

theorem xlsx_Extract_ok (decode : Encoding → Bytes → Option Bytes)
    (openFile : Bytes → Except String Workbook) (content : Bytes) (options : ExtractOptions)
    (wb : Workbook)
    (hsize : ¬ (options.MaxFileSize > 0 ∧ (content.length : Int) > options.MaxFileSize))
    (hopen : openFile content = .ok wb) :
    ∃ result,
      (XLSXExtractor.Extract decode ⟨none, none⟩ openFile (.ok content) options).2 =
        .ok result ∧
      result.Text = (wb.flatten.flatten.map TrimSpace).flatten := by
  obtain ⟨r, hr⟩ := plainText_Extract_succeeds decode content options hsize
  simp only [XLSXExtractor.Extract, hr, hopen]
  exact ⟨_, rfl, by simp [sheetLoop_text]⟩

/-- C12: when `XLSXExtractor.Extract` succeeds, its text is the trimmed strings
of all cells in sheet, row and cell order, concatenated without any separator
(an empty trimmed cell contributes nothing). -/
theorem xlsx_Extract_text (decode : Encoding → Bytes → Option Bytes)
    (openFile : Bytes → Except String Workbook) (content : Bytes) (options : ExtractOptions)
    (wb : Workbook)
    (hsize : ¬ (options.MaxFileSize > 0 ∧ (content.length : Int) > options.MaxFileSize))
    (hopen : openFile content = .ok wb) :
    ((XLSXExtractor.Extract decode ⟨none, none⟩ openFile (.ok content) options).2.toOption.map
        (fun r => r.Text)) =
      some (wb.flatten.flatten.map TrimSpace).flatten := by
  obtain ⟨r, hr, ht⟩ := xlsx_Extract_ok decode openFile content options wb hsize hopen
  rw [hr]
  simp [Except.toOption, ht]

theorem xlsx_Extract_text_witness :
    ¬ (DefaultExtractOptions.MaxFileSize > 0 ∧
        ((ascii "PK").length : Int) > DefaultExtractOptions.MaxFileSize) ∧
    ((XLSXExtractor.Extract (fun _ _ => none) ⟨none, none⟩
        (fun _ => .ok [[[ascii " a", ascii "b "], [ascii "  "]], [[ascii "c"]]])
        (.ok (ascii "PK")) DefaultExtractOptions).2.toOption.map (fun r => r.Text)) =
      some (ascii "abc") :=
  ⟨by decide,
    xlsx_Extract_text (fun _ _ => none)
      (fun _ => .ok [[[ascii " a", ascii "b "], [ascii "  "]], [[ascii "c"]]])
      (ascii "PK") DefaultExtractOptions _ (by decide) rfl⟩

/-! ## Line endings in the delegating extractors -/

theorem pdf_Extract_no_cr (tmp : TempFile) (pdfOpen : Bytes → Except String (List PDFPage))
    (reader : Reader) (options : ExtractOptions) (r : ExtractResult)
    (h : (PDFExtractor.Extract tmp pdfOpen reader options).2 = .ok r)
    (hpf : options.PreserveFormatting = false) : 13 ∉ r.Text := by
  unfold PDFExtractor.Extract at h
  split at h
  · cases h
  · split at h
    · cases h
    · split at h
      · cases h
      · split at h
        · cases h
        · split at h
          · cases h
          · simp only [hpf, Bool.not_false, if_true, Except.ok.injEq] at h
            rw [← h]
            simp only [pdf_normalizeLineEndings_eq]
            exact normalizeLineEndings_no_cr _

theorem mem_flatten_map_TrimSpace (b : Nat) (wb : Workbook) :
    b ∈ (wb.flatten.flatten.map TrimSpace).flatten ↔
      ∃ sheet ∈ wb, ∃ row ∈ sheet, ∃ cell ∈ row, b ∈ TrimSpace cell := by
  simp only [List.mem_flatten, List.mem_map]
  constructor
  · rintro ⟨l, ⟨cell, ⟨row, ⟨sheet, hs, hrow⟩, hcell⟩, rfl⟩, hb⟩
    exact ⟨sheet, hs, row, hrow, cell, hcell, hb⟩
  · rintro ⟨sheet, hs, row, hrow, cell, hcell, hb⟩
    exact ⟨_, ⟨cell, ⟨row, ⟨sheet, hs, hrow⟩, hcell⟩, rfl⟩, hb⟩

/-- C13 (amended): with `PreserveFormatting = false`, the text of a successful
`PDFExtractor.Extract` holds no carriage return; `XLSXExtractor.Extract` does
not normalise line endings: the text of a successful call holds a carriage
return exactly when the trimmed string of some cell does. -/
theorem delegating_line_endings (tmp : TempFile)
    (pdfOpen : Bytes → Except String (List PDFPage)) (reader : Reader)
    (options : ExtractOptions) (r : ExtractResult)
    (decode : Encoding → Bytes → Option Bytes) (openFile : Bytes → Except String Workbook)
    (content : Bytes) (xoptions : ExtractOptions) (wb : Workbook)
    (hpdf : (PDFExtractor.Extract tmp pdfOpen reader options).2 = .ok r)
    (hpf : options.PreserveFormatting = false)
    (hsize : ¬ (xoptions.MaxFileSize > 0 ∧ (content.length : Int) > xoptions.MaxFileSize))
    (hopen : openFile content = .ok wb) :
    13 ∉ r.Text ∧
    ∃ xr, (XLSXExtractor.Extract decode ⟨none, none⟩ openFile (.ok content) xoptions).2 =
        .ok xr ∧
      (13 ∈ xr.Text ↔ ∃ sheet ∈ wb, ∃ row ∈ sheet, ∃ cell ∈ row, 13 ∈ TrimSpace cell) := by
  refine ⟨pdf_Extract_no_cr tmp pdfOpen reader options r hpdf hpf, ?_⟩
  obtain ⟨xr, hx, ht⟩ := xlsx_Extract_ok decode openFile content xoptions wb hsize hopen
  exact ⟨xr, hx, by rw [ht]; exact mem_flatten_map_TrimSpace 13 wb⟩

theorem delegating_line_endings_witness :
    13 ∉ ascii "a\nb" ∧
    ∃ xr, (XLSXExtractor.Extract (fun _ _ => none) ⟨none, none⟩
        (fun _ => .ok [[[ascii "x\ry"]]]) (.ok (ascii "PK")) DefaultExtractOptions).2 =
        .ok xr ∧
      (13 ∈ xr.Text ↔
        ∃ sheet ∈ [[[ascii "x\ry"]]], ∃ row ∈ sheet, ∃ cell ∈ row, 13 ∈ TrimSpace cell) :=
  delegating_line_endings ⟨none, none⟩ (fun _ => .ok [some [ascii "a\rb"]]) (.ok (ascii "%PDF"))
    DefaultExtractOptions
    { Text := ascii "a\nb"
      Metadata := [("page_count", .int 1), ("size_bytes", .int 4), ("line_count", .int 2),
                   ("char_count", .int 3), ("word_count", .int 2)]
      FileType := "pdf" }
    (fun _ _ => none) (fun _ => .ok [[[ascii "x\ry"]]]) (ascii "PK") DefaultExtractOptions
    [[[ascii "x\ry"]]] (by decide) rfl (by decide) rfl

/-- C13 fails as stated: with `PreserveFormatting = false`, a workbook whose
single cell holds "x\ry" is extracted by `XLSXExtractor.Extract` as "x\ry",
carriage return included. -/
theorem xlsx_line_endings_counterexample :
    DefaultExtractOptions.PreserveFormatting = false ∧
    ((XLSXExtractor.Extract (fun _ _ => none) ⟨none, none⟩
        (fun _ => .ok [[[ascii "x\ry"]]]) (.ok (ascii "PK")) DefaultExtractOptions).2.toOption.map
        (fun r => r.Text)) = some (ascii "x\ry") ∧
    13 ∈ ascii "x\ry" := by
  decide

/-! ## PDF pages -/

theorem pageLoop_none (n i : Nat) (rest : List PDFPage) :
    pageLoop n i (none :: rest) = pageLoop n (i + 1) rest := by
  rw [pageLoop]

theorem pageLoop_some (n i : Nat) (texts : List Bytes) (rest : List PDFPage) :
    pageLoop n i (some texts :: rest) =
      extractPageText texts ++ (if i < n then ascii "\n\n" else []) ++
        pageLoop n (i + 1) rest := by
  rw [pageLoop]

theorem intercalate_cons_of_ne_nil {α : Type} (sep x : List α) (l : List (List α))
    (h : l ≠ []) : sep.intercalate (x :: l) = x ++ sep ++ sep.intercalate l := by
  cases l with
  | nil => exact absurd rfl h
  | cons y ys => exact intercalate_cons_cons sep x y ys

theorem pageLoop_last_not_null (pageCount : Nat) (text : List Bytes) :
    ∀ (init : List PDFPage) (pageNum : Nat), pageNum + init.length = pageCount →
      pageLoop pageCount pageNum (init ++ [some text]) =
        Join ((init.filterMap id ++ [text]).map extractPageText) (ascii "\n\n") := by
  intro init
  induction init with
  | nil =>
    intro pageNum h
    simp only [List.length_nil, Nat.add_zero] at h
    subst h
    simp [pageLoop, Join, intercalate_single]
  | cons p ps ih =>
    intro pageNum h
    simp only [List.length_cons] at h
    have ih2 := ih (pageNum + 1) (by omega)
    cases p with
    | none =>
      rw [List.cons_append, pageLoop_none, ih2]
      simp only [List.filterMap_cons, id]
    | some u =>
      have hlt : pageNum < pageCount := by omega
      rw [List.cons_append, pageLoop_some, ih2, if_pos hlt]
      simp only [List.filterMap_cons, id, List.cons_append, List.map_cons, Join]
      rw [intercalate_cons_of_ne_nil _ _ _ (by simp)]

/-- C11 (code): the text built by `PDFExtractor.Extract` for a two-page PDF
whose first page yields "a" and whose second page is null is "a\n\n": the
separator written after page 1 is not followed by any page.  When the last
page is not null, the text is the texts of the non-null pages joined by a
blank line. -/
theorem pdf_pages_separator :
    pageLoop 2 1 [some [ascii "a"], none] = ascii "a\n\n" ∧
    ((PDFExtractor.Extract ⟨none, none⟩ (fun _ => .ok [some [ascii "a"], none])
        (.ok (ascii "%PDF")) DefaultExtractOptions).2.toOption.map (fun r => r.Text)) =
      some (ascii "a\n\n") ∧
    (∀ (init : List PDFPage) (text : List Bytes),
      pageLoop (init ++ [some text]).length 1 (init ++ [some text]) =
        Join ((init.filterMap id ++ [text]).map extractPageText) (ascii "\n\n")) := by
  refine ⟨by decide, by decide, ?_⟩
  intro init text
  exact pageLoop_last_not_null _ text init 1 (by simp; omega)

/-! ## The image extractor -/

/-- C16 (amended): `extractFromContent` returns a result and never an error.
The result has empty text and the metadata flag "error" equal to "empty
content" when the content is empty; otherwise "file too large" when the
effective cap is positive and the length exceeds it; otherwise "invalid image
format" when decoding fails; in the remaining case the text is not empty and
no "error" flag is set. -/
theorem image_extractFromContent (e : ImageExtractor)
    (decodeImage : Bytes → Except String DecodedImage) (toLower : String → String)
    (now : String) (content : Bytes) (options : ExtractOptions) :
    ∃ result,
      e.extractFromContent decodeImage toLower now content options = .ok result ∧
      (if content = [] then
          result.Text = [] ∧ result.Metadata.get "error" = some (.str "empty content")
        else if 0 < effectiveCap e options ∧
            (content.length : Int) > effectiveCap e options then
          result.Text = [] ∧ result.Metadata.get "error" = some (.str "file too large")
        else if (decodeImage content).toOption = none then
          result.Text = [] ∧ result.Metadata.get "error" = some (.str "invalid image format")
        else result.Text ≠ [] ∧ result.Metadata.get "error" = none) := by
  unfold ImageExtractor.extractFromContent
  by_cases h0 : content = []
  · subst h0
    exact ⟨_, rfl, by simp; rfl⟩
  · have hlen : content.length ≠ 0 := fun h => h0 (List.length_eq_zero.mp h)
    simp only [hlen, if_false, h0]
    by_cases hcap : 0 < effectiveCap e options ∧
        (content.length : Int) > effectiveCap e options
    · have hcap2 := hcap
      simp only [effectiveCap] at hcap2
      simp only [gt_iff_lt, hcap2, and_self, if_true, hcap]
      exact ⟨_, rfl, rfl, rfl⟩
    · have hcap2 := hcap
      simp only [effectiveCap] at hcap2
      simp only [gt_iff_lt, hcap2, if_false, hcap]
      cases hd : decodeImage content with
      | error err =>
        simp only [Except.toOption, if_true]
        exact ⟨_, rfl, rfl, rfl⟩
      | ok img =>
        simp only [Except.toOption, reduceCtorEq, if_false]
        refine ⟨_, rfl, ?_, rfl⟩
        by_cases hs : containsStr (toLower options.FileType) "sample" = true
        · simp only [hs, if_true]; decide
        · simp only [hs, if_false, Bool.false_eq_true]; decide

/-- C16 fails as stated: for an extractor whose own `MaxFileSize` is 0 and
options with `MaxFileSize = 0`, the effective cap is 0 and a one-byte content
exceeds it, yet the flag is "invalid image format", not "file too large". -/
theorem image_extractFromContent_counterexample :
    ([1].length : Int) >
        effectiveCap ⟨0⟩ { DefaultExtractOptions with MaxFileSize := 0 } ∧
    ((ImageExtractor.extractFromContent ⟨0⟩ (fun _ => .error "image: unknown format") id
        "2024-01-01T00:00:00Z" [1]
        { DefaultExtractOptions with MaxFileSize := 0 }).toOption.bind
        (fun r => r.Metadata.get "error")) ≠ some (.str "file too large") := by
  decide

/-! ## Slide parts -/

theorem slideLoop_count :
    ∀ (files : List ZipFile) (allText : List Bytes) (slideCount : Nat),
      (slideLoop files (allText, slideCount)).2 =
        slideCount + (files.filter (fun f => isSlidePart f.Name)).length := by
  intro files
  induction files with
  | nil => intro a n; simp [slideLoop]
  | cons f files ih =>
    intro a n
    rw [slideLoop]
    by_cases hs : isSlidePart f.Name = true
    · simp only [hs, if_true, List.filter_cons, List.length_cons]
      cases f.data with
      | none => simp only [ih]; omega
      | some x =>
        simp only []
        split
        · rw [ih]; omega
        · rw [ih]; omega
    · simp only [hs, Bool.false_eq_true, if_false, List.filter_cons, ih]

theorem numberedSlidePath_isSlidePart (name : Bytes) (h : numberedSlidePath name = true) :
    isSlidePart name = true := by
  simp only [numberedSlidePath, Bool.and_eq_true, beq_iff_eq] at h
  obtain ⟨⟨hp, _⟩, hx⟩ := h
  simp only [isSlidePart, hp, Bool.true_and, HasSuffix, List.isSuffixOf_iff_suffix]
  have h1 : ascii ".xml" <:+ name.drop 16 := by
    rw [← hx]; exact List.dropWhile_suffix _
  exact h1.trans (List.drop_suffix 16 name)

/-- C18 (amended): an archive entry is treated as a slide part exactly when its
path starts with "ppt/slides/slide" and ends with ".xml"; every path made of
that prefix, a numeric suffix and ".xml" is such a path; the slide count is the
number of the entries that are treated as slide parts. -/
theorem isSlidePart_iff (zipNewReader : Bytes → Option (List ZipFile)) (content : Bytes)
    (files : List ZipFile) (hz : zipNewReader content = some files) :
    (∀ name : Bytes, isSlidePart name = true ↔
      (ascii "ppt/slides/slide" <+: name ∧ ascii ".xml" <:+ name)) ∧
    (∀ name : Bytes, numberedSlidePath name = true → isSlidePart name = true) ∧
    ((extractTextFromPPTX zipNewReader content).toOption.map (fun r => r.2)) =
      some (files.filter (fun f => isSlidePart f.Name)).length := by
  refine ⟨?_, numberedSlidePath_isSlidePart, ?_⟩
  · intro name
    simp only [isSlidePart, HasPrefix, HasSuffix, Bool.and_eq_true, List.isPrefixOf_iff_prefix,
      List.isSuffixOf_iff_suffix]
  · simp only [extractTextFromPPTX, hz, Except.toOption, Option.map_some', slideLoop_count]
    simp

theorem isSlidePart_iff_witness :
    (∀ name : Bytes, isSlidePart name = true ↔
      (ascii "ppt/slides/slide" <+: name ∧ ascii ".xml" <:+ name)) ∧
    (∀ name : Bytes, numberedSlidePath name = true → isSlidePart name = true) ∧
    ((extractTextFromPPTX
        (fun _ => some [⟨ascii "ppt/slides/slide12.xml", some []⟩,
                        ⟨ascii "ppt/slides/_rels/slide12.xml.rels", some []⟩,
                        ⟨ascii "ppt/presentation.xml", some []⟩])
        (ascii "PK")).toOption.map (fun r => r.2)) =
      some ([(⟨ascii "ppt/slides/slide12.xml", some []⟩ : ZipFile),
             ⟨ascii "ppt/slides/_rels/slide12.xml.rels", some []⟩,
             ⟨ascii "ppt/presentation.xml", some []⟩].filter
              (fun f => isSlidePart f.Name)).length :=
  isSlidePart_iff
    (fun _ => some [⟨ascii "ppt/slides/slide12.xml", some []⟩,
                    ⟨ascii "ppt/slides/_rels/slide12.xml.rels", some []⟩,
                    ⟨ascii "ppt/presentation.xml", some []⟩])
    (ascii "PK") _ rfl

/-- C18 fails as stated: the entry "ppt/slides/slideA.xml", whose suffix is not
numeric, is treated as a slide part and counted. -/
theorem isSlidePart_counterexample :
    numberedSlidePath (ascii "ppt/slides/slideA.xml") = false ∧
    isSlidePart (ascii "ppt/slides/slideA.xml") = true ∧
    extractTextFromPPTX (fun _ => some [⟨ascii "ppt/slides/slideA.xml", some []⟩])
        (ascii "PK") = .ok ([], 1) := by
  decide

/-! ## DOCX metadata -/

theorem Metadata_get_set_same (m : Metadata) (k : String) (v : MetaValue) :
    (m.set k v).get k = some v := by
  simp only [Metadata.get, Metadata.set, List.find?_append]
  have hnone : List.find? (fun p => p.1 == k) (List.filter (fun p => p.1 != k) m) = none := by
    rw [List.find?_eq_none]
    intro p hp
    have := (List.mem_filter.mp hp).2
    simpa using this
  simp [hnone]

theorem Metadata_get_set_other (m : Metadata) (k k2 : String) (v : MetaValue) (h : k2 ≠ k) :
    (m.set k v).get k2 = m.get k2 := by
  simp only [Metadata.get, Metadata.set, List.find?_append]
  have hkk : (k == k2) = false := by simp [Ne.symm h]
  have hlast : List.find? (fun p => p.1 == k2) [(k, v)] = none := by
    simp [List.find?, hkk]
  have hfilter : ∀ l : Metadata,
      List.find? (fun p => p.1 == k2) (List.filter (fun p => p.1 != k) l) =
        List.find? (fun p => p.1 == k2) l := by
    intro l
    induction l with
    | nil => rfl
    | cons p ps ih =>
      by_cases hk : p.1 = k
      · have hk2 : ¬ p.1 = k2 := fun e => h (e.symm.trans hk)
        simp [List.filter_cons, hk, List.find?_cons, hkk, ih]
      · by_cases hk2 : p.1 = k2
        · simp [List.filter_cons, hk, List.find?_cons, hk2, h]
        · simp [List.filter_cons, hk, List.find?_cons, hk2, ih]
  rw [hlast, hfilter]
  simp

theorem docx_Extract_ok (decode : Encoding → Bytes → Option Bytes)
    (zipNewReader : Bytes → Option (List ZipFile)) (content : Bytes)
    (options : ExtractOptions) (text : Bytes)
    (hsize : ¬ (options.MaxFileSize > 0 ∧ (content.length : Int) > options.MaxFileSize))
    (hx : extractTextFromDOCX zipNewReader content = .ok text) :
    ∃ result,
      DOCXExtractor.Extract decode zipNewReader (.ok content) options = .ok result ∧
      result.Text = text ∧
      result.Metadata.get "paragraphs" = some (.str (Itoa (Count text 10 + 1))) ∧
      result.Metadata.get "line_count" = some (.str (Itoa (Count text 10 + 1))) := by
  obtain ⟨r, hr⟩ := plainText_Extract_succeeds decode content options hsize
  simp only [DOCXExtractor.Extract, hr, hx]
  refine ⟨_, rfl, rfl, ?_, ?_⟩
  · rw [Metadata_get_set_other _ _ _ _ (by decide), Metadata_get_set_other _ _ _ _ (by decide),
      Metadata_get_set_other _ _ _ _ (by decide), Metadata_get_set_same]
  · rw [Metadata_get_set_same]

/-- C19 (code): the "paragraphs" metadata of `DOCXExtractor.Extract` is not
the number of paragraph elements found by the paragraph scan.  Whenever the
extraction succeeds, with recovered text `text`, the metadata is
`strings.Count(text, "\n") + 1`, the value of "line_count".  For a document
part of two paragraph elements, the second without text, the scan finds 2
paragraph elements and the metadata is "1"; for a document part without
paragraph element the scan finds none and the metadata is "1". -/
theorem docx_paragraphs_not_scan_count :
    (∀ (decode : Encoding → Bytes → Option Bytes)
        (zipNewReader : Bytes → Option (List ZipFile)) (content : Bytes)
        (options : ExtractOptions) (text : Bytes),
      ¬ (options.MaxFileSize > 0 ∧ (content.length : Int) > options.MaxFileSize) →
      extractTextFromDOCX zipNewReader content = .ok text →
      ∃ result,
        DOCXExtractor.Extract decode zipNewReader (.ok content) options = .ok result ∧
        result.Text = text ∧
        result.Metadata.get "paragraphs" = some (.str (Itoa (Count text 10 + 1))) ∧
        result.Metadata.get "line_count" = some (.str (Itoa (Count text 10 + 1)))) ∧
    (findAllSubmatch matchParagraphAt (documentXML [[ascii "a"], []])).length = 2 ∧
    ((DOCXExtractor.Extract (fun _ _ => none)
        (fun _ => some [⟨ascii "word/document.xml", some (documentXML [[ascii "a"], []])⟩])
        (.ok (ascii "PK")) DefaultExtractOptions).toOption.bind
        (fun r => r.Metadata.get "paragraphs")) = some (.str "1") ∧
    (findAllSubmatch matchParagraphAt (ascii "<w:document><w:body/></w:document>")).length = 0 ∧
    ((DOCXExtractor.Extract (fun _ _ => none)
        (fun _ => some [⟨ascii "word/document.xml",
          some (ascii "<w:document><w:body/></w:document>")⟩])
        (.ok (ascii "PK")) DefaultExtractOptions).toOption.bind
        (fun r => r.Metadata.get "paragraphs")) = some (.str "1") :=
  ⟨fun decode zipNewReader content options text hsize hx =>
      docx_Extract_ok decode zipNewReader content options text hsize hx,
    by decide⟩

/-! ## Markdown stripping -/

theorem Split_ne_nil (sep : Nat) (s : Bytes) : Split sep s ≠ [] := by
  induction s with
  | nil => simp [Split]
  | cons b t ih =>
    rw [Split]
    split
    · simp
    · split <;> simp

theorem Split_no_sep (sep : Nat) (s : Bytes) : ∀ l ∈ Split sep s, sep ∉ l := by
  induction s with
  | nil => simp [Split]
  | cons b t ih =>
    intro l hl
    rw [Split] at hl
    by_cases hb : b = sep
    · simp only [hb, if_true, List.mem_cons] at hl
      rcases hl with rfl | hl
      · simp
      · exact ih l hl
    · simp only [hb, if_false] at hl
      cases hs : Split sep t with
      | nil => exact absurd hs (Split_ne_nil sep t)
      | cons f fs =>
        rw [hs] at hl ih
        simp only [List.mem_cons] at hl
        rcases hl with rfl | hl
        · have hf := ih f (List.mem_cons_self _ _)
          simp only [List.mem_cons, not_or]
          exact ⟨fun e => hb e.symm, hf⟩
        · exact ih l (List.mem_cons_of_mem _ hl)

theorem Split_append_sep (sep : Nat) :
    ∀ (x : Bytes) (rest : Bytes), sep ∉ x →
      Split sep (x ++ sep :: rest) = x :: Split sep rest := by
  intro x
  induction x with
  | nil => intro rest _; simp [Split]
  | cons a x ih =>
    intro rest h
    simp only [List.mem_cons, not_or] at h
    have ha : ¬ a = sep := fun e => h.1 e.symm
    rw [List.cons_append, Split, if_neg ha, ih rest h.2]

theorem Split_no_sep_self (sep : Nat) : ∀ (x : Bytes), sep ∉ x → Split sep x = [x] := by
  intro x
  induction x with
  | nil => intro _; rfl
  | cons a x ih =>
    intro h
    simp only [List.mem_cons, not_or] at h
    have ha : ¬ a = sep := fun e => h.1 e.symm
    rw [Split, if_neg ha, ih h.2]

theorem Split_Join (sep : Nat) :
    ∀ (ls : List Bytes), ls ≠ [] → (∀ l ∈ ls, sep ∉ l) → Split sep (Join ls [sep]) = ls := by
  intro ls
  induction ls with
  | nil => intro h; exact absurd rfl h
  | cons x xs ih =>
    intro _ hno
    have hx := hno x (List.mem_cons_self _ _)
    cases xs with
    | nil => simp only [Join, intercalate_single]; exact Split_no_sep_self sep x hx
    | cons y ys =>
      have ih2 := ih (by simp) (fun l hl => hno l (List.mem_cons_of_mem _ hl))
      simp only [Join] at ih2 ⊢
      rw [intercalate_cons_cons, List.append_assoc, List.singleton_append,
        Split_append_sep sep x _ hx, ih2]

theorem mem_replaceFrom_nil (old : Bytes) (b : Nat) :
    ∀ (s : Bytes) (k : Nat), b ∈ replaceFrom old [] k s → b ∈ s := by
  intro s
  induction s with
  | nil => intro k h; rw [replaceFrom_nil] at h; exact h
  | cons a t ih =>
    intro k h
    cases k with
    | succ k =>
      rw [replaceFrom_succ_cons] at h
      exact List.mem_cons_of_mem _ (ih k h)
    | zero =>
      rw [replaceFrom_zero_cons] at h
      split at h
      · simp only [List.nil_append] at h
        exact List.mem_cons_of_mem _ (ih _ h)
      · simp only [List.mem_cons] at h
        rcases h with rfl | h
        · exact List.mem_cons_self _ _
        · exact List.mem_cons_of_mem _ (ih 0 h)

theorem not_mem_replaceFrom_single_nil (c : Nat) :
    ∀ (s : Bytes), c ∉ replaceFrom [c] [] 0 s := by
  intro s
  induction s with
  | nil => simp [replaceFrom]
  | cons b t ih =>
    rw [replaceFrom_zero_cons]
    by_cases hb : c = b
    · have hpre : [c].isPrefixOf (b :: t) = true := by simp [List.isPrefixOf, hb]
      simp only [hpre, if_true, List.length_singleton, Nat.sub_self, List.nil_append]
      exact ih
    · have hpre : [c].isPrefixOf (b :: t) = false := by simp [List.isPrefixOf, hb]
      simp only [hpre, Bool.false_eq_true, if_false, List.mem_cons, not_or]
      exact ⟨hb, ih⟩

theorem mem_TrimLeft (b : Nat) (s cutset : Bytes) (h : b ∈ TrimLeft s cutset) : b ∈ s :=
  (List.dropWhile_suffix _).subset h

theorem head_TrimLeft (s cutset : Bytes) (b : Nat) (h : (TrimLeft s cutset).head? = some b) :
    cutset.contains b = false := by
  unfold TrimLeft at h
  induction s with
  | nil => simp at h
  | cons a t ih =>
    rw [List.dropWhile_cons] at h
    by_cases ha : cutset.contains a = true
    · simp only [ha, if_true] at h
      exact ih h
    · simp only [ha, Bool.false_eq_true, if_false, List.head?_cons, Option.some.injEq] at h
      subst h
      simpa using ha

theorem mem_stripLine (b : Nat) (line : Bytes) (h : b ∈ stripLine line) : b ∈ line := by
  unfold stripLine at h
  simp only [ReplaceAll] at h
  have h1 := mem_TrimLeft _ _ _ h
  have h2 := mem_replaceFrom_nil _ _ _ _ h1
  have h3 := mem_replaceFrom_nil _ _ _ _ h2
  have h4 := mem_replaceFrom_nil _ _ _ _ h3
  have h5 := mem_replaceFrom_nil _ _ _ _ h4
  have h6 := mem_replaceFrom_nil _ _ _ _ h5
  exact mem_TrimLeft _ _ _ h6

theorem ascii_star : ascii "*" = [42] := by decide
theorem ascii_underscore : ascii "_" = [95] := by decide
theorem ascii_backtick : ascii "`" = [96] := by decide

theorem stripLine_clean (line : Bytes) :
    42 ∉ stripLine line ∧ 95 ∉ stripLine line ∧ 96 ∉ stripLine line := by
  unfold stripLine
  simp only [ReplaceAll, ascii_star, ascii_underscore, ascii_backtick]
  refine ⟨?_, ?_, ?_⟩
  · intro h
    have h1 := mem_TrimLeft _ _ _ h
    have h2 := mem_replaceFrom_nil _ _ _ _ h1
    have h3 := mem_replaceFrom_nil _ _ _ _ h2
    exact not_mem_replaceFrom_single_nil 42 _ h3
  · intro h
    have h1 := mem_TrimLeft _ _ _ h
    have h2 := mem_replaceFrom_nil _ _ _ _ h1
    exact not_mem_replaceFrom_single_nil 95 _ h2
  · intro h
    have h1 := mem_TrimLeft _ _ _ h
    exact not_mem_replaceFrom_single_nil 96 _ h1

theorem mem_Join (b : Nat) (sep : Bytes) :
    ∀ (ls : List Bytes), b ∈ Join ls sep → b ∈ sep ∨ ∃ l ∈ ls, b ∈ l := by
  intro ls
  induction ls with
  | nil => intro h; simp [Join, List.intercalate, List.intersperse] at h
  | cons x xs ih =>
    intro h
    cases xs with
    | nil =>
      simp only [Join, intercalate_single] at h
      exact Or.inr ⟨x, List.mem_cons_self _ _, h⟩
    | cons y ys =>
      simp only [Join] at h ih
      rw [intercalate_cons_cons] at h
      simp only [List.mem_append] at h
      rcases h with (h | h) | h
      · exact Or.inr ⟨x, List.mem_cons_self _ _, h⟩
      · exact Or.inl h
      · rcases ih h with h | ⟨l, hl, hb⟩
        · exact Or.inl h
        · exact Or.inr ⟨l, List.mem_cons_of_mem _ hl, hb⟩

theorem stripMarkdownSyntax_lines (text : Bytes) :
    Split 10 (stripMarkdownSyntax text) = (Split 10 text).map stripLine := by
  simp only [stripMarkdownSyntax, ascii_lf]
  apply Split_Join
  · simpa using Split_ne_nil 10 text
  · intro l hl
    obtain ⟨line, hline, rfl⟩ := List.mem_map.mp hl
    exact fun h => Split_no_sep 10 text line hline (mem_stripLine 10 line h)

/-- C20: the output of `stripMarkdownSyntax` has as many lines as the input,
holds no `*`, `_` or backtick, and none of its lines begins with a space, `-`
or `+`. -/
theorem stripMarkdownSyntax_clean (text : Bytes) :
    (Split 10 (stripMarkdownSyntax text)).length = (Split 10 text).length ∧
    42 ∉ stripMarkdownSyntax text ∧ 95 ∉ stripMarkdownSyntax text ∧
    96 ∉ stripMarkdownSyntax text ∧
    (∀ line ∈ Split 10 (stripMarkdownSyntax text), ∀ b, line.head? = some b →
      b ≠ 32 ∧ b ≠ 45 ∧ b ≠ 43) := by
  have hclean : ∀ b, (b = 42 ∨ b = 95 ∨ b = 96) → b ∉ stripMarkdownSyntax text := by
    intro b hb h
    simp only [stripMarkdownSyntax] at h
    rcases mem_Join b _ _ h with h | ⟨l, hl, hbl⟩
    · rw [ascii_lf] at h
      simp only [List.mem_singleton] at h
      omega
    · obtain ⟨line, _, rfl⟩ := List.mem_map.mp hl
      have := stripLine_clean line
      rcases hb with rfl | rfl | rfl
      · exact this.1 hbl
      · exact this.2.1 hbl
      · exact this.2.2 hbl
  refine ⟨?_, hclean 42 (Or.inl rfl), hclean 95 (Or.inr (Or.inl rfl)),
    hclean 96 (Or.inr (Or.inr rfl)), ?_⟩
  · rw [stripMarkdownSyntax_lines, List.length_map]
  · intro line hline b hb
    rw [stripMarkdownSyntax_lines] at hline
    obtain ⟨l, _, rfl⟩ := List.mem_map.mp hline
    have hc := head_TrimLeft _ _ b hb
    have hcut : ascii "- + " = [45, 32, 43, 32] := by decide
    rw [hcut] at hc
    simp only [List.contains_eq_any_beq, List.any_cons, List.any_nil, Bool.or_false,
      Bool.or_eq_false_iff, beq_eq_false_iff_ne, ne_eq] at hc
    omega

/-! ## Markdown links -/

theorem countLinksLoop_cons (char : Nat) (rest : Bytes) (inLink inURL : Bool) (count : Nat) :
    countLinksLoop (char :: rest) inLink inURL count =
      if char = 91 then
        if !inLink && !inURL then countLinksLoop rest true inURL count
        else countLinksLoop rest inLink inURL count
      else if char = 93 then
        if inLink && rest.head? == some 40 then countLinksLoop rest false true count
        else countLinksLoop rest inLink inURL count
      else if char = 41 then
        if inURL then countLinksLoop rest inLink false (count + 1)
        else countLinksLoop rest inLink inURL count
      else countLinksLoop rest inLink inURL count := by
  rw [countLinksLoop]

theorem countLinksLoop_filler :
    ∀ (s r : Bytes) (inLink inURL : Bool) (count : Nat), 91 ∉ s → 93 ∉ s → 41 ∉ s →
      countLinksLoop (s ++ r) inLink inURL count = countLinksLoop r inLink inURL count := by
  intro s
  induction s with
  | nil => intro r a b c _ _ _; rfl
  | cons x s ih =>
    intro r a b c h1 h2 h3
    simp only [List.mem_cons, not_or] at h1 h2 h3
    have e1 : ¬ x = 91 := fun e => h1.1 e.symm
    have e2 : ¬ x = 93 := fun e => h2.1 e.symm
    have e3 : ¬ x = 41 := fun e => h3.1 e.symm
    rw [List.cons_append, countLinksLoop_cons, if_neg e1, if_neg e2, if_neg e3]
    exact ih r a b c h1.2 h2.2 h3.2

theorem ascii_lbracket : ascii "[" = [91] := by decide
theorem ascii_rbracket_lparen : ascii "](" = [93, 40] := by decide
theorem ascii_rparen : ascii ")" = [41] := by decide

theorem countLinksLoop_link (t u r : Bytes) (count : Nat)
    (ht : noBrackets t) (hu : noBrackets u) :
    countLinksLoop (linkText t u ++ r) false false count =
      countLinksLoop r false false (count + 1) := by
  obtain ⟨t1, t2, _, t4⟩ := ht
  obtain ⟨u1, u2, _, u4⟩ := hu
  have hshape : linkText t u ++ r = 91 :: (t ++ (93 :: 40 :: (u ++ (41 :: r)))) := by
    simp [linkText, ascii_lbracket, ascii_rbracket_lparen, ascii_rparen]
  rw [hshape, countLinksLoop_cons]
  simp only [if_true, Bool.not_false, Bool.and_self]
  rw [countLinksLoop_filler t _ _ _ _ t1 t2 t4, countLinksLoop_cons]
  simp only [Nat.reduceEqDiff, if_false, if_true, List.head?_cons, beq_self_eq_true,
    Bool.and_self]
  rw [countLinksLoop_cons]
  simp only [Nat.reduceEqDiff, if_false]
  rw [countLinksLoop_filler u _ _ _ _ u1 u2 u4, countLinksLoop_cons]
  simp only [Nat.reduceEqDiff, if_false, if_true]

theorem countLinksLoop_links :
    ∀ (links : List (Bytes × Bytes × Bytes)) (count : Nat),
      (∀ l ∈ links, noBrackets l.1 ∧ noBrackets l.2.1 ∧ noBrackets l.2.2) →
      countLinksLoop (links.map (fun l => linkText l.1 l.2.1 ++ l.2.2)).flatten
        false false count = count + links.length := by
  intro links
  induction links with
  | nil => intro c _; rfl
  | cons l ls ih =>
    intro c h
    obtain ⟨ht, hu, hf⟩ := h l (List.mem_cons_self _ _)
    have ih2 := ih (c + 1) (fun x hx => h x (List.mem_cons_of_mem _ hx))
    simp only [List.map_cons, List.flatten_cons, List.append_assoc]
    rw [countLinksLoop_link _ _ _ _ ht hu,
      countLinksLoop_filler _ _ _ _ _ hf.1 hf.2.1 hf.2.2.2, ih2, List.length_cons]
    omega

/-- C21: for a text made of k well-formed links `[t](u)`, separated (and
possibly preceded and followed) by filler, where no t, u or filler holds one
of the characters `[`, `]`, `(`, `)`, `countLinks` returns k. -/
theorem countLinks_wellFormed (first : Bytes) (links : List (Bytes × Bytes × Bytes))
    (hfirst : noBrackets first)
    (hlinks : ∀ l ∈ links, noBrackets l.1 ∧ noBrackets l.2.1 ∧ noBrackets l.2.2) :
    countLinks (linksText first links) = links.length := by
  simp only [countLinks, linksText]
  rw [countLinksLoop_filler _ _ _ _ _ hfirst.1 hfirst.2.1 hfirst.2.2.2,
    countLinksLoop_links links 0 hlinks]
  omega

theorem countLinks_wellFormed_witness :
    noBrackets (ascii "see ") ∧
    countLinks (linksText (ascii "see ")
      [(ascii "a", ascii "http://x", ascii " and "), (ascii "b c", ascii "y", ascii ".")]) = 2 :=
  ⟨by decide,
    countLinks_wellFormed (ascii "see ")
      [(ascii "a", ascii "http://x", ascii " and "), (ascii "b c", ascii "y", ascii ".")]
      (by decide) (by decide)⟩

/-! ## PPTX and the options -/

/-- C22: `PPTXExtractor.Extract` does not depend on its options: two calls on
the same stream with any two option values give the same result (the same
text, file type and metadata, or the same failure).  In particular content of
a readable archive is processed whatever `MaxFileSize` is, while for content
longer than a positive `MaxFileSize` the plain-text, DOCX, XLSX and PDF
extractors fail with the size-check error. -/
theorem pptx_Extract_options (zipNewReader : Bytes → Option (List ZipFile))
    (reader : Reader) (options1 options2 : ExtractOptions) :
    PPTXExtractor.Extract zipNewReader reader options1 =
        PPTXExtractor.Extract zipNewReader reader options2 ∧
    (∀ (content : Bytes) (files : List ZipFile), zipNewReader content = some files →
      ∃ result, PPTXExtractor.Extract zipNewReader (.ok content) options1 = .ok result) ∧
    (∀ (decode : Encoding → Bytes → Option Bytes) (tmp : TempFile)
        (openFile : Bytes → Except String Workbook)
        (pdfOpen : Bytes → Except String (List PDFPage)) (content : Bytes),
      options1.MaxFileSize > 0 → (content.length : Int) > options1.MaxFileSize →
        (∃ e, PlainTextExtractor.Extract decode (.ok content) options1 = .error e) ∧
        (∃ e, DOCXExtractor.Extract decode zipNewReader (.ok content) options1 = .error e) ∧
        (∃ e, (XLSXExtractor.Extract decode tmp openFile (.ok content) options1).2 =
          .error e) ∧
        (∃ e, (PDFExtractor.Extract tmp pdfOpen (.ok content) options1).2 = .error e)) ∧
    PPTXExtractor.Extract
        (fun _ => some [⟨ascii "ppt/slides/slide1.xml", some (slideXML [ascii "a"])⟩])
        (.ok (ascii "PK")) { DefaultExtractOptions with MaxFileSize := 1 } =
      .ok { Text := ascii "a"
            Metadata := [("slides", .str "1"), ("characters", .str "1"),
                         ("line_count", .str "1")]
            FileType := "pptx" } := by
  refine ⟨rfl, ?_, ?_, by decide⟩
  · intro content files hz
    simp only [PPTXExtractor.Extract, extractTextFromPPTX, hz]
    exact ⟨_, rfl⟩
  · intro decode tmp openFile pdfOpen content hpos hlen
    have h := plainText_Extract_oversize decode content options1 hpos hlen
    refine ⟨⟨_, h⟩, ?_, ?_, ?_⟩
    · simp only [DOCXExtractor.Extract, h]
      exact ⟨_, rfl⟩
    · simp only [XLSXExtractor.Extract, h]
      exact ⟨_, rfl⟩
    · simp only [PDFExtractor.Extract, hpos, hlen, and_self, if_true]
      exact ⟨_, rfl⟩

/-! ## Markdown headings -/

theorem mem_of_mem_Split (sep b : Nat) :
    ∀ (s l : Bytes), l ∈ Split sep s → b ∈ l → b ∈ s := by
  intro s
  induction s with
  | nil =>
    intro l hl hb
    simp only [Split, List.mem_singleton] at hl
    subst hl
    exact hb
  | cons a t ih =>
    intro l hl hb
    rw [Split] at hl
    by_cases ha : a = sep
    · simp only [ha, if_true, List.mem_cons] at hl
      rcases hl with rfl | hl
      · simp at hb
      · exact List.mem_cons_of_mem _ (ih l hl hb)
    · simp only [ha, if_false] at hl
      cases hs : Split sep t with
      | nil => exact absurd hs (Split_ne_nil sep t)
      | cons f fs =>
        rw [hs] at hl ih
        simp only [List.mem_cons] at hl
        rcases hl with rfl | hl
        · simp only [List.mem_cons] at hb
          rcases hb with rfl | hb
          · exact List.mem_cons_self _ _
          · exact List.mem_cons_of_mem _ (ih f (List.mem_cons_self _ _) hb)
        · exact List.mem_cons_of_mem _ (ih l (List.mem_cons_of_mem _ hl) hb)

theorem mem_trimLeftSpace (b : Nat) (s : Bytes) (h : b ∈ trimLeftSpace s) : b ∈ s := by
  induction s using trimLeftSpace.induct with
  | case1 => simp [trimLeftSpace] at h
  | case2 b0 r0 h0 ih =>
    rw [trimLeftSpace.eq_def] at h; simp only [h0, if_true] at h
    exact List.mem_cons_of_mem _ (ih h)
  | case3 b0 h0 =>
    rw [trimLeftSpace.eq_def] at h; simp only [h0, if_false, Bool.false_eq_true] at h
    exact h
  | case4 b0 h0 b1 r1 h2 ih =>
    rw [trimLeftSpace.eq_def] at h
    simp only [h0, if_false, h2, if_true, Bool.false_eq_true] at h
    exact List.mem_cons_of_mem _ (List.mem_cons_of_mem _ (ih h))
  | case5 b0 h0 b1 h2 =>
    rw [trimLeftSpace.eq_def] at h; simp only [h0, if_false, h2, Bool.false_eq_true] at h
    exact h
  | case6 b0 h0 b1 h2 b2 r2 h3 ih =>
    rw [trimLeftSpace.eq_def] at h
    simp only [h0, if_false, h2, h3, if_true, Bool.false_eq_true] at h
    exact List.mem_cons_of_mem _ (List.mem_cons_of_mem _ (List.mem_cons_of_mem _ (ih h)))
  | case7 b0 h0 b1 h2 b2 r2 h3 =>
    rw [trimLeftSpace.eq_def] at h; simp only [h0, if_false, h2, h3, Bool.false_eq_true] at h
    exact h

theorem mem_trimLeftSpaceRev (b : Nat) (s : Bytes) (h : b ∈ trimLeftSpaceRev s) : b ∈ s := by
  induction s using trimLeftSpaceRev.induct with
  | case1 => simp [trimLeftSpaceRev] at h
  | case2 b0 r0 h0 ih =>
    rw [trimLeftSpaceRev.eq_def] at h; simp only [h0, if_true] at h
    exact List.mem_cons_of_mem _ (ih h)
  | case3 b0 h0 =>
    rw [trimLeftSpaceRev.eq_def] at h; simp only [h0, if_false, Bool.false_eq_true] at h
    exact h
  | case4 b0 h0 b1 r1 h2 ih =>
    rw [trimLeftSpaceRev.eq_def] at h
    simp only [h0, if_false, h2, if_true, Bool.false_eq_true] at h
    exact List.mem_cons_of_mem _ (List.mem_cons_of_mem _ (ih h))
  | case5 b0 h0 b1 h2 =>
    rw [trimLeftSpaceRev.eq_def] at h; simp only [h0, if_false, h2, Bool.false_eq_true] at h
    exact h
  | case6 b0 h0 b1 h2 b2 r2 h3 ih =>
    rw [trimLeftSpaceRev.eq_def] at h
    simp only [h0, if_false, h2, h3, if_true, Bool.false_eq_true] at h
    exact List.mem_cons_of_mem _ (List.mem_cons_of_mem _ (List.mem_cons_of_mem _ (ih h)))
  | case7 b0 h0 b1 h2 b2 r2 h3 =>
    rw [trimLeftSpaceRev.eq_def] at h
    simp only [h0, if_false, h2, h3, Bool.false_eq_true] at h
    exact h

theorem mem_TrimSpace (b : Nat) (s : Bytes) (h : b ∈ TrimSpace s) : b ∈ s := by
  simp only [TrimSpace, trimRightSpace, List.mem_reverse] at h
  have h1 := mem_trimLeftSpaceRev b _ h
  rw [List.mem_reverse] at h1
  exact mem_trimLeftSpace b s h1

theorem ascii_hash : ascii "#" = [35] := by decide
theorem ascii_hash_space : ascii "# " = [35, 32] := by decide

theorem mem_of_HasPrefix_hash (s : Bytes) (h : HasPrefix s (ascii "#") = true) : 35 ∈ s := by
  rw [ascii_hash] at h
  cases s with
  | nil => simp [HasPrefix, List.isPrefixOf] at h
  | cons a t =>
    simp only [HasPrefix, List.isPrefixOf, Bool.and_true, beq_iff_eq] at h
    rw [← h]
    exact List.mem_cons_self _ _

theorem countHeadingsLoop_eq (ls : List Bytes) :
    countHeadingsLoop ls =
      (ls.filter (fun line => HasPrefix (TrimSpace line) (ascii "#"))).length := by
  induction ls with
  | nil => rfl
  | cons l ls ih =>
    rw [countHeadingsLoop, List.filter_cons]
    by_cases h : HasPrefix (TrimSpace l) (ascii "#") = true
    · simp only [h, if_true, ih, List.length_cons]; omega
    · simp only [h, if_false, ih, Bool.false_eq_true]

theorem countHeadings_eq_headingLines (text : Bytes) :
    countHeadings text = headingLines text := by
  simp only [countHeadings, headingLines, countHeadingsLoop_eq]

theorem countHeadings_no_hash (text : Bytes) (h : 35 ∉ text) : countHeadings text = 0 := by
  rw [countHeadings_eq_headingLines, headingLines, List.length_eq_zero, List.filter_eq_nil_iff]
  intro l hl hp
  exact h (mem_of_mem_Split 10 35 text l hl (mem_TrimSpace 35 l (mem_of_HasPrefix_hash _ hp)))

theorem mem_stripLine_TrimLeft (b : Nat) (line : Bytes) (h : b ∈ stripLine line) :
    b ∈ TrimLeft line (ascii "# ") := by
  unfold stripLine at h
  simp only [ReplaceAll] at h
  have h1 := mem_TrimLeft _ _ _ h
  have h2 := mem_replaceFrom_nil _ _ _ _ h1
  have h3 := mem_replaceFrom_nil _ _ _ _ h2
  have h4 := mem_replaceFrom_nil _ _ _ _ h3
  have h5 := mem_replaceFrom_nil _ _ _ _ h4
  exact mem_replaceFrom_nil _ _ _ _ h5

theorem stripMarkdownSyntax_no_hash (text : Bytes)
    (h : ∀ l ∈ Split 10 text, 35 ∉ TrimLeft l (ascii "# ")) :
    35 ∉ stripMarkdownSyntax text := by
  intro hm
  simp only [stripMarkdownSyntax] at hm
  rcases mem_Join 35 _ _ hm with hsep | ⟨l, hl, hb⟩
  · rw [ascii_lf] at hsep
    simp at hsep
  · obtain ⟨line, hline, rfl⟩ := List.mem_map.mp hl
    exact h line hline (mem_stripLine_TrimLeft 35 line hb)

theorem hashesLead_cons (lead : Bool) (b : Nat) (t : Bytes) :
    hashesLead lead (b :: t) =
      if b = 10 then hashesLead true t
      else if b = 35 then lead && hashesLead lead t
      else if b = 32 then hashesLead lead t
      else hashesLead false t := by
  rw [hashesLead]

theorem TrimLeft_cons (b : Nat) (s cutset : Bytes) :
    TrimLeft (b :: s) cutset = if cutset.contains b then TrimLeft s cutset else b :: s := by
  simp only [TrimLeft, List.dropWhile_cons]

/-- The lines of a text obey the rule "every `#` lies in the leading run of
`#` and space characters" exactly when the scan `hashesLead` accepts the text. -/
theorem hashesLead_iff :
    ∀ (text : Bytes) (lead : Bool) (f : Bytes) (fs : List Bytes), Split 10 text = f :: fs →
      (hashesLead lead text = true ↔
        ((if lead then 35 ∉ TrimLeft f [35, 32] else 35 ∉ f) ∧
          ∀ l ∈ fs, 35 ∉ TrimLeft l [35, 32])) := by
  intro text
  induction text with
  | nil =>
    intro lead f fs h
    simp only [Split, List.cons.injEq] at h
    obtain ⟨rfl, rfl⟩ := h
    cases lead <;> simp [hashesLead, TrimLeft]
  | cons b t ih =>
    intro lead f fs h
    rw [Split] at h
    cases hs : Split 10 t with
    | nil => exact absurd hs (Split_ne_nil 10 t)
    | cons f2 fs2 =>
      rw [hs] at h
      rw [hashesLead_cons]
      by_cases h10 : b = 10
      · simp only [h10, if_true, List.cons.injEq] at h ⊢
        obtain ⟨rfl, rfl⟩ := h
        rw [ih true f2 fs2 hs]
        cases lead <;> simp [TrimLeft]
      · simp only [h10, if_false, List.cons.injEq] at h ⊢
        obtain ⟨rfl, rfl⟩ := h
        by_cases h35 : b = 35
        · subst h35
          cases lead
          · simp
          · simp only [if_true, Bool.true_and, ih true f2 fs2 hs, TrimLeft_cons]
            simp
        · by_cases h32 : b = 32
          · subst h32
            cases lead
            · simp only [Nat.reduceEqDiff, if_false, if_true, ih false f2 fs2 hs,
                Bool.false_eq_true, List.mem_cons, not_or]
              simp
            · simp only [Nat.reduceEqDiff, if_false, if_true, ih true f2 fs2 hs, TrimLeft_cons]
              simp
          · have hb : ¬ 35 = b := fun e => h35 e.symm
            cases lead
            · simp only [h35, h32, if_false, ih false f2 fs2 hs, Bool.false_eq_true,
                List.mem_cons, not_or, hb, not_false_eq_true, true_and]
            · simp only [h35, h32, if_false, if_true, ih false f2 fs2 hs, Bool.false_eq_true,
                TrimLeft_cons]
              simp [h35, h32, hb]

theorem hashesLead_mono : ∀ (text : Bytes), hashesLead false text = true →
    hashesLead true text = true := by
  intro text
  induction text with
  | nil => intro _; rfl
  | cons b t ih =>
    intro h
    rw [hashesLead_cons] at h ⊢
    by_cases h10 : b = 10
    · simp only [h10, if_true] at h ⊢; exact h
    · by_cases h35 : b = 35
      · simp [h10, h35] at h
      · by_cases h32 : b = 32
        · simp only [h10, h35, h32, if_false, if_true] at h ⊢
          simp only [Nat.reduceEqDiff, if_false] at h ⊢
          exact ih h
        · simp only [h10, h35, h32, if_false] at h ⊢; exact h

theorem hashesLead_scan : ∀ (text : Bytes) (lead : Bool), hashesLead lead text = true →
    hashesLead lead (scanLineEndings text) = true := by
  intro text
  induction text using scanLineEndings.induct with
  | case1 => intro _ _; rfl
  | case2 _ =>
    intro lead _
    simp [scanLineEndings, hashesLead]
  | case3 t2 _ ih =>
    intro lead h
    rw [scanLineEndings.eq_def]
    simp only [if_true]
    rw [hashesLead_cons] at h ⊢
    simp only [Nat.reduceEqDiff, if_false, if_true] at h ⊢
    rw [hashesLead_cons] at h
    simp only [if_true] at h
    exact ih true h
  | case4 c t2 hc ih =>
    intro lead h
    rw [scanLineEndings.eq_def]
    simp only [if_true, hc, if_false]
    rw [hashesLead_cons] at h ⊢
    simp only [Nat.reduceEqDiff, if_false, if_true] at h ⊢
    exact hashesLead_mono _ (ih false h)
  | case5 b t hb ih =>
    intro lead h
    rw [scanLineEndings.eq_def]
    simp only [hb, if_false]
    rw [hashesLead_cons] at h ⊢
    by_cases h10 : b = 10
    · simp only [h10, if_true] at h ⊢; exact ih true h
    · by_cases h35 : b = 35
      · simp only [h10, h35, if_false, if_true, Bool.and_eq_true] at h ⊢
        simp only [Nat.reduceEqDiff, if_false, if_true, Bool.and_eq_true] at h ⊢
        exact ⟨h.1, ih lead h.2⟩
      · by_cases h32 : b = 32
        · simp only [h10, h35, h32, if_false, if_true] at h ⊢
          simp only [Nat.reduceEqDiff, if_false, if_true] at h ⊢
          exact ih lead h
        · simp only [h10, h35, h32, if_false] at h ⊢; exact ih false h

/-- The rule on the `#` characters passes from a text to its lines after the
normalisation of the line endings. -/
theorem hashes_normalize (text : Bytes)
    (h : ∀ l ∈ Split 10 text, 35 ∉ TrimLeft l (ascii "# ")) :
    ∀ l ∈ Split 10 (PlainTextExtractor.normalizeLineEndings text),
      35 ∉ TrimLeft l (ascii "# ") := by
  rw [ascii_hash_space] at h ⊢
  rw [normalizeLineEndings_eq_scan]
  have h1 : hashesLead true text = true := by
    cases hs : Split 10 text with
    | nil => exact absurd hs (Split_ne_nil 10 text)
    | cons f fs =>
      rw [hashesLead_iff text true f fs hs]
      rw [hs] at h
      exact ⟨by simpa using h f (List.mem_cons_self _ _),
        fun l hl => h l (List.mem_cons_of_mem _ hl)⟩
  have h2 := hashesLead_scan text true h1
  cases hs : Split 10 (scanLineEndings text) with
  | nil => exact absurd hs (Split_ne_nil 10 _)
  | cons f fs =>
    rw [hashesLead_iff _ true f fs hs] at h2
    intro l hl
    simp only [List.mem_cons] at hl
    rcases hl with rfl | hl
    · simpa using h2.1
    · exact h2.2 l hl

theorem plainText_Extract_valid (decode : Encoding → Bytes → Option Bytes)
    (content : Bytes) (options : ExtractOptions)
    (hvalid : utf8Valid content = true)
    (hsize : ¬ (options.MaxFileSize > 0 ∧ (content.length : Int) > options.MaxFileSize)) :
    ∃ result, PlainTextExtractor.Extract decode (.ok content) options = .ok result ∧
      result.Text =
        (if options.PreserveFormatting then content
         else PlainTextExtractor.normalizeLineEndings content) := by
  simp only [PlainTextExtractor.Extract, hsize, if_false, detectAndConvertEncoding, hvalid,
    if_true]
  refine ⟨_, rfl, ?_⟩
  cases options.PreserveFormatting <;> rfl

theorem markdown_Extract_heading_count (decode : Encoding → Bytes → Option Bytes)
    (content : Bytes) (options : ExtractOptions)
    (hvalid : utf8Valid content = true)
    (hsize : ¬ (options.MaxFileSize > 0 ∧ (content.length : Int) > options.MaxFileSize)) :
    ((MarkdownExtractor.Extract decode (.ok content) options).toOption.bind
        (fun r => r.Metadata.get "heading_count")) =
      some (.int (countHeadings
        (if options.PreserveFormatting then content
         else stripMarkdownSyntax (PlainTextExtractor.normalizeLineEndings content)))) := by
  obtain ⟨r, hr, ht⟩ := plainText_Extract_valid decode content options hvalid hsize
  simp only [MarkdownExtractor.Extract, hr, Except.toOption, Option.some_bind]
  rw [Metadata_get_set_other _ _ _ _ (by decide), Metadata_get_set_same, ht]
  cases options.PreserveFormatting <;> rfl

/-- C23: for valid UTF-8 Markdown input of which every `#` lies in the leading
run of `#` and space characters of its line, `MarkdownExtractor.Extract` with
`PreserveFormatting = false` reports `heading_count = 0`; with
`PreserveFormatting = true` it reports, for every valid UTF-8 input, the
number of lines whose trimmed form starts with `#`. -/
theorem markdown_heading_count (decode : Encoding → Bytes → Option Bytes)
    (content : Bytes) (options : ExtractOptions)
    (hvalid : utf8Valid content = true)
    (hsize : ¬ (options.MaxFileSize > 0 ∧ (content.length : Int) > options.MaxFileSize)) :
    (options.PreserveFormatting = false →
      (∀ l ∈ Split 10 content, 35 ∉ TrimLeft l (ascii "# ")) →
      ((MarkdownExtractor.Extract decode (.ok content) options).toOption.bind
        (fun r => r.Metadata.get "heading_count")) = some (.int 0)) ∧
    (options.PreserveFormatting = true →
      ((MarkdownExtractor.Extract decode (.ok content) options).toOption.bind
        (fun r => r.Metadata.get "heading_count")) = some (.int (headingLines content))) := by
  have h := markdown_Extract_heading_count decode content options hvalid hsize
  constructor
  · intro hpf hhash
    rw [h, hpf]
    simp only [Bool.false_eq_true, if_false]
    rw [countHeadings_no_hash _
      (stripMarkdownSyntax_no_hash _ (hashes_normalize content hhash))]
    rfl
  · intro hpf
    rw [h, hpf]
    simp only [if_true, countHeadings_eq_headingLines]

theorem markdown_heading_count_witness :
    utf8Valid (ascii "# A\r\n  ## B\ntext") = true ∧
    (∀ l ∈ Split 10 (ascii "# A\r\n  ## B\ntext"), 35 ∉ TrimLeft l (ascii "# ")) ∧
    ((MarkdownExtractor.Extract (fun _ _ => none) (.ok (ascii "# A\r\n  ## B\ntext"))
        DefaultExtractOptions).toOption.bind
        (fun r => r.Metadata.get "heading_count")) = some (.int 0) ∧
    ((MarkdownExtractor.Extract (fun _ _ => none) (.ok (ascii "# A\r\n  ## B\ntext"))
        { DefaultExtractOptions with PreserveFormatting := true }).toOption.bind
        (fun r => r.Metadata.get "heading_count")) = some (.int 2) :=
  ⟨by decide, by decide,
    (markdown_heading_count (fun _ _ => none) (ascii "# A\r\n  ## B\ntext")
      DefaultExtractOptions (by decide) (by decide)).1 rfl (by decide),
    (markdown_heading_count (fun _ _ => none) (ascii "# A\r\n  ## B\ntext")
      { DefaultExtractOptions with PreserveFormatting := true } (by decide) (by decide)).2 rfl⟩

/-! ## Scanning a part of the general shape -/

theorem Contains_cons (b : Nat) (t substr : Bytes) :
    Contains (b :: t) substr = (substr.isPrefixOf (b :: t) || Contains t substr) := by
  rw [Contains]

theorem isPrefixOf_cons_cons (x a : Nat) (l s : Bytes) :
    (x :: l).isPrefixOf (a :: s) = (x == a && l.isPrefixOf s) := by
  rw [List.isPrefixOf]

theorem isPrefixOf_append_self (tag r : Bytes) : tag.isPrefixOf (tag ++ r) = true := by
  induction tag with
  | nil => simp [List.isPrefixOf]
  | cons a t ih => simp [isPrefixOf_cons_cons, ih]

/-- A literal free of `<` that is a prefix of `g ++ r`, where `r` is empty or
starts with `<`, is a prefix of `g`. -/
theorem isPrefixOf_of_append (r : Bytes) (hr : r = [] ∨ ∃ r', r = 60 :: r') :
    ∀ (l g : Bytes), 60 ∉ l → l.isPrefixOf (g ++ r) = true → l.isPrefixOf g = true := by
  intro l
  induction l with
  | nil => intro g _ _; simp [List.isPrefixOf]
  | cons x l ih =>
    intro g hl h
    simp only [List.mem_cons, not_or] at hl
    cases g with
    | nil =>
      rcases hr with hr | ⟨r', hr⟩
      · subst hr; simp [List.isPrefixOf] at h
      · subst hr
        simp only [List.nil_append, isPrefixOf_cons_cons, Bool.and_eq_true, beq_iff_eq] at h
        exact absurd h.1.symm hl.1
    | cons a g =>
      simp only [List.cons_append, isPrefixOf_cons_cons, Bool.and_eq_true, beq_iff_eq] at h ⊢
      exact ⟨h.1, ih g hl.2 h.2⟩

/-- The literal `<l`, with no second `<`, does not start at a position of a
gap and run over into what follows. -/
theorem isPrefixOf_cons_gap (l : Bytes) (hl : 60 ∉ l) (b : Nat) (t r : Bytes)
    (hr : r = [] ∨ ∃ r', r = 60 :: r')
    (h : (60 :: l).isPrefixOf (b :: t) = false) :
    (60 :: l).isPrefixOf (b :: (t ++ r)) = false := by
  rw [isPrefixOf_cons_cons] at h ⊢
  by_cases hb : (60 == b) = true
  · simp only [hb, Bool.true_and] at h ⊢
    cases hp : l.isPrefixOf (t ++ r) with
    | false => rfl
    | true => rw [isPrefixOf_of_append r hr l t hl hp] at h; exact absurd h (by simp)
  · simp only [Bool.not_eq_true] at hb
    simp [hb]

/-- A gap that does not hold the opening literal yields no match. -/
theorem findAllFrom_gap (m : Bytes → Option (Bytes × Bytes)) (l : Bytes) (hl : 60 ∉ l)
    (hm : ∀ s, (60 :: l).isPrefixOf s = false → m s = none) (r : Bytes)
    (hr : r = [] ∨ ∃ r', r = 60 :: r') :
    ∀ (g : Bytes), Contains g (60 :: l) = false →
      findAllFrom m 0 (g ++ r) = findAllFrom m 0 r := by
  intro g
  induction g with
  | nil => intro _; rfl
  | cons b t ih =>
    intro hg
    rw [Contains_cons, Bool.or_eq_false_iff] at hg
    rw [List.cons_append,
      findAllFrom_nomatch m b (t ++ r) (hm _ (isPrefixOf_cons_gap l hl b t r hr hg.1))]
    exact ih hg.2

/-- The lazy `.*?` stops at the first closing literal: a body on one line that
does not hold the literal is captured whole. -/
theorem lazyDotUntil_body (l : Bytes) (hl : 60 ∉ l) (rest : Bytes) :
    ∀ (body : Bytes), 10 ∉ body → Contains body (60 :: l) = false →
      lazyDotUntil (60 :: l) (body ++ ((60 :: l) ++ rest)) = some (body, rest) := by
  intro body
  induction body with
  | nil => intro _ _; exact lazyDotUntil_close (60 :: l) rest (by simp)
  | cons a t ih =>
    intro h10 hc
    simp only [List.mem_cons, not_or] at h10
    rw [Contains_cons, Bool.or_eq_false_iff] at hc
    have ha10 : ¬ a = 10 := fun h => h10.1 h.symm
    have hpre := isPrefixOf_cons_gap l hl a t ((60 :: l) ++ rest) (Or.inr ⟨_, rfl⟩) hc.1
    rw [List.cons_append, lazyDotUntil_cons, hpre, if_neg (by simp), if_neg ha10,
      ih h10.2 hc.2]
    rfl

theorem splitAtFirst_append (c : Nat) :
    ∀ (a r : Bytes), c ∉ a → splitAtFirst c (a ++ c :: r) = some (a, r) := by
  intro a
  induction a with
  | nil => intro r _; simp [splitAtFirst]
  | cons x a ih =>
    intro r h
    simp only [List.mem_cons, not_or] at h
    have hx : ¬ x = c := fun e => h.1 e.symm
    simp [splitAtFirst, hx, ih r h.2]

theorem drop_length_append (tag r : Bytes) : (tag ++ r).drop tag.length = r := by
  simp

theorem not_mem_of_isTagAttrs (attrs : Bytes) (h : isTagAttrs attrs = true) : 62 ∉ attrs := by
  simp only [isTagAttrs, Bool.and_eq_true] at h
  intro hm
  have h1 := h.1.1
  simp only [List.contains_eq_any_beq, Bool.not_eq_true', List.any_eq_false, beq_iff_eq] at h1
  exact h1 62 hm rfl

/-- The run pattern at a text element captures its text and leaves what
follows the closing tag. -/
theorem matchRunAt_elem (tag c attrs text rest : Bytes) (ha : 62 ∉ attrs) (ht : 60 ∉ text) :
    matchRunAt tag (60 :: c) (tag ++ (attrs ++ 62 :: (text ++ 60 :: (c ++ rest)))) =
      some (text, rest) := by
  have hclose : (60 :: c).isPrefixOf (60 :: (c ++ rest)) = true :=
    isPrefixOf_append_self (60 :: c) rest
  have hdrop : (60 :: (c ++ rest)).drop (60 :: c).length = rest :=
    drop_length_append (60 :: c) rest
  simp only [matchRunAt, isPrefixOf_append_self, if_true, drop_length_append,
    splitAtFirst_append 62 attrs _ ha, takeWhile_ne_append 60 text _ ht,
    dropWhile_ne_append 60 text _ ht, hclose, hdrop]

theorem matchRunAt_none (tag close s : Bytes) (h : tag.isPrefixOf s = false) :
    matchRunAt tag close s = none := by
  simp [matchRunAt, h]

theorem flatten_xml_head (l closeTag : Bytes) (elems : List TextElem) :
    (elems.map (TextElem.xml (60 :: l) closeTag)).flatten = [] ∨
      ∃ r', (elems.map (TextElem.xml (60 :: l) closeTag)).flatten = 60 :: r' := by
  cases elems with
  | nil => exact Or.inl rfl
  | cons e es => exact Or.inr ⟨_, by simp [TextElem.xml]; rfl⟩

/-- The run pattern finds exactly the texts of the text elements, in order. -/
theorem findAll_runsXML (l c : Bytes) (hl : 60 ∉ l) (before : Bytes)
    (elems : List TextElem) (h : wellFormedRuns (60 :: l) before elems) :
    findAllSubmatch (matchRunAt (60 :: l) (60 :: c))
        (runsXML (60 :: l) (60 :: c) before elems) = elems.map (fun e => e.text) := by
  obtain ⟨hb, he⟩ := h
  have hm := matchRunAt_none (60 :: l) (60 :: c)
  simp only [findAllSubmatch, runsXML]
  rw [findAllFrom_gap _ l hl hm _ (flatten_xml_head l (60 :: c) elems) before hb]
  clear hb
  induction elems with
  | nil => rfl
  | cons e es ih =>
    obtain ⟨ha0, ht, hc⟩ := he e (List.mem_cons_self _ _)
    have ha := not_mem_of_isTagAttrs e.attrs ha0
    have ih2 := ih (fun x hx => he x (List.mem_cons_of_mem _ hx))
    have hmatch := matchRunAt_elem (60 :: l) c e.attrs e.text
      (e.after ++ (es.map (TextElem.xml (60 :: l) (60 :: c))).flatten) ha ht
    have hshape : (List.map (TextElem.xml (60 :: l) (60 :: c)) (e :: es)).flatten =
        60 :: ((l ++ (e.attrs ++ 62 :: (e.text ++ 60 :: c))) ++
          (e.after ++ (es.map (TextElem.xml (60 :: l) (60 :: c))).flatten)) := by
      simp [TextElem.xml, ascii]
    have hshape2 : (60 :: l) ++ (e.attrs ++ 62 :: (e.text ++ 60 :: (c ++
          (e.after ++ (es.map (TextElem.xml (60 :: l) (60 :: c))).flatten)))) =
        60 :: ((l ++ (e.attrs ++ 62 :: (e.text ++ 60 :: c))) ++
          (e.after ++ (es.map (TextElem.xml (60 :: l) (60 :: c))).flatten)) := by
      simp
    rw [hshape2] at hmatch
    rw [hshape, findAllFrom_match _ 60 _ _ _ hmatch,
      findAllFrom_gap _ l hl hm _ (flatten_xml_head l (60 :: c) es) e.after hc, ih2]
    rfl

theorem ascii_gt : ascii ">" = [62] := by decide

theorem textRuns_Paragraph_body (p : Paragraph) (hp : p.wellFormed) :
    textRuns p.body = p.elems.map (fun e => e.text) := by
  have hw := hp.2.2.2.1
  simp only [textRuns, Paragraph.body, ascii_wt_open, ascii_wt_close] at hw ⊢
  exact findAll_runsXML [119, 58, 116] [47, 119, 58, 116, 62] (by decide) p.before p.elems hw

theorem Paragraph_xml_shape (p : Paragraph) (rest : Bytes) :
    p.xml ++ rest =
      60 :: (([119, 58, 112] ++ (p.attrs ++ 62 :: (p.body ++ [60, 47, 119, 58, 112, 62]))) ++
        (p.after ++ rest)) := by
  simp [Paragraph.xml, ascii_wp_open, ascii_wp_close, ascii_gt]

/-- The paragraph pattern at a paragraph element captures its body and leaves
what follows the closing tag. -/
theorem matchParagraphAt_xml (p : Paragraph) (rest : Bytes) (hp : p.wellFormed) :
    matchParagraphAt (p.xml ++ rest) = some (p.body, p.after ++ rest) := by
  obtain ⟨ha0, h10, hc, _, _⟩ := hp
  have ha := not_mem_of_isTagAttrs p.attrs ha0
  rw [ascii_wp_close] at hc
  have hs : p.xml ++ rest = [60, 119, 58, 112] ++
      (p.attrs ++ 62 :: (p.body ++ ([60, 47, 119, 58, 112, 62] ++ (p.after ++ rest)))) := by
    simp [Paragraph.xml, ascii_wp_open, ascii_wp_close, ascii_gt]
  have hd : ([60, 119, 58, 112] ++
      (p.attrs ++ 62 :: (p.body ++ ([60, 47, 119, 58, 112, 62] ++ (p.after ++ rest))))).drop 4 =
      p.attrs ++ 62 :: (p.body ++ ([60, 47, 119, 58, 112, 62] ++ (p.after ++ rest))) := rfl
  rw [hs]
  simp only [matchParagraphAt, ascii_wp_open, ascii_wp_close, isPrefixOf_append_self, if_true,
    hd, splitAtFirst_append 62 p.attrs _ ha]
  exact lazyDotUntil_body [47, 119, 58, 112, 62] (by decide) (p.after ++ rest) p.body h10 hc

theorem matchParagraphAt_none (s : Bytes) (h : (60 :: [119, 58, 112]).isPrefixOf s = false) :
    matchParagraphAt s = none := by
  simp [matchParagraphAt, ascii_wp_open, h]

theorem Contains_tail (b : Nat) (t lit : Bytes) (h : Contains (b :: t) lit = false) :
    Contains t lit = false := by
  rw [Contains_cons, Bool.or_eq_false_iff] at h
  exact h.2

theorem Contains_drop (lit : Bytes) :
    ∀ (k : Nat) (s : Bytes), Contains s lit = false → Contains (s.drop k) lit = false := by
  intro k
  induction k with
  | zero => intro s h; exact h
  | succ k ih =>
    intro s h
    cases s with
    | nil => exact h
    | cons b t => exact ih t (Contains_tail b t lit h)

theorem Contains_splitAtFirst (c : Nat) (lit : Bytes) :
    ∀ (s a body : Bytes), Contains s lit = false → splitAtFirst c s = some (a, body) →
      Contains body lit = false := by
  intro s
  induction s with
  | nil => intro a body _ h; simp [splitAtFirst] at h
  | cons b t ih =>
    intro a body hc h
    by_cases hb : b = c
    · simp only [splitAtFirst, hb, if_true, Option.some.injEq, Prod.mk.injEq] at h
      rw [← h.2]
      exact Contains_tail b t lit hc
    · simp only [splitAtFirst, hb, if_false] at h
      cases hq : splitAtFirst c t with
      | none => rw [hq] at h; simp at h
      | some q =>
        rw [hq] at h
        simp only [Option.map_some', Option.some.injEq, Prod.mk.injEq] at h
        exact ih q.1 body (Contains_tail b t lit hc) (by rw [hq, ← h.2])

/-- Without a closing literal ahead, the lazy `.*?` finds no match. -/
theorem lazyDotUntil_none (c : Nat) (l : Bytes) :
    ∀ (s : Bytes), Contains s (c :: l) = false → lazyDotUntil (c :: l) s = none := by
  intro s
  induction s with
  | nil => intro _; rfl
  | cons b t ih =>
    intro h
    rw [Contains_cons, Bool.or_eq_false_iff] at h
    rw [lazyDotUntil_cons, h.1, ih h.2]
    simp

theorem matchParagraphAt_noclose (s : Bytes)
    (h : Contains (s.drop 4) (ascii "</w:p>") = false) : matchParagraphAt s = none := by
  rw [ascii_wp_close] at h
  unfold matchParagraphAt
  split
  · cases hs : splitAtFirst 62 (s.drop 4) with
    | none => rfl
    | some q =>
      obtain ⟨a, body⟩ := q
      simp only [ascii_wp_close]
      exact lazyDotUntil_none 60 _ body (Contains_splitAtFirst 62 _ _ a body h hs)
  · rfl

/-- Markup that holds no `</w:p>` yields no paragraph. -/
theorem findAllFrom_noclose :
    ∀ (s : Bytes), Contains s (ascii "</w:p>") = false →
      findAllFrom matchParagraphAt 0 s = [] := by
  intro s
  induction s with
  | nil => intro _; rfl
  | cons b t ih =>
    intro h
    rw [findAllFrom_nomatch _ b t (matchParagraphAt_noclose _ (Contains_drop _ 4 _ h))]
    exact ih (Contains_tail b t _ h)

/-- A gap without `<w:p` followed by closing markup without `</w:p>` yields no
paragraph. -/
theorem findAllFrom_gap_noclose (post : Bytes)
    (hpost : Contains post (ascii "</w:p>") = false) :
    ∀ (g : Bytes), Contains g (ascii "<w:p") = false →
      findAllFrom matchParagraphAt 0 (g ++ post) = [] := by
  intro g
  induction g with
  | nil => intro _; exact findAllFrom_noclose post hpost
  | cons b t ih =>
    intro hg
    have hnone : matchParagraphAt (b :: (t ++ post)) = none := by
      rcases t with _ | ⟨t1, _ | ⟨t2, _ | ⟨t3, t⟩⟩⟩
      · exact matchParagraphAt_noclose _ (Contains_drop _ 3 _ hpost)
      · exact matchParagraphAt_noclose _ (Contains_drop _ 2 _ hpost)
      · exact matchParagraphAt_noclose _ (Contains_drop _ 1 _ hpost)
      · apply matchParagraphAt_none
        rw [ascii_wp_open, Contains_cons, Bool.or_eq_false_iff] at hg
        have h1 := hg.1
        simp only [List.cons_append, isPrefixOf_cons_cons, List.isPrefixOf] at h1 ⊢
        simpa using h1
    rw [List.cons_append, findAllFrom_nomatch _ b _ hnone]
    exact ih (Contains_tail b t _ hg)

theorem Paragraph_xml_head (p : Paragraph) (rest : Bytes) :
    ∃ r', p.xml ++ rest = 60 :: r' := ⟨_, Paragraph_xml_shape p rest⟩

/-- The paragraph pattern finds exactly the bodies of the paragraph elements,
in order. -/
theorem findAll_paragraphs (post : Bytes) (hpost : Contains post (ascii "</w:p>") = false) :
    ∀ (paras : List Paragraph), (∀ p ∈ paras, p.wellFormed) →
      ∀ (g : Bytes), Contains g (ascii "<w:p") = false →
        findAllFrom matchParagraphAt 0 (g ++ ((paras.map Paragraph.xml).flatten ++ post)) =
          paras.map Paragraph.body := by
  intro paras
  induction paras with
  | nil => intro _ g hg; exact findAllFrom_gap_noclose post hpost g hg
  | cons p ps ih =>
    intro h g hg
    have hp := h p (List.mem_cons_self _ _)
    have hmatch := matchParagraphAt_xml p ((ps.map Paragraph.xml).flatten ++ post) hp
    have hg2 := hg
    rw [ascii_wp_open] at hg2
    rw [Paragraph_xml_shape] at hmatch
    rw [List.map_cons, List.flatten_cons, List.append_assoc,
      findAllFrom_gap _ [119, 58, 112] (by decide) matchParagraphAt_none _
        (Or.inr (Paragraph_xml_head p _)) g hg2,
      Paragraph_xml_shape, findAllFrom_match _ 60 _ _ _ hmatch,
      ih (fun x hx => h x (List.mem_cons_of_mem _ hx)) p.after hp.2.2.2.2]
    rfl

theorem findAll_documentPartXML (pre post : Bytes) (paras : List Paragraph)
    (h : wellFormedDocument pre paras post) :
    findAllSubmatch matchParagraphAt (documentPartXML pre paras post) =
      paras.map Paragraph.body :=
  findAll_paragraphs post h.2.2 paras h.2.1 pre h.1

theorem extractTextFromXML_documentPartXML (pre post : Bytes) (paras : List Paragraph)
    (h : wellFormedDocument pre paras post) :
    extractTextFromXML (documentPartXML pre paras post) =
      TrimSpace (Join (paras.map Paragraph.text) [10]) := by
  have hruns : (paras.map Paragraph.body).map (fun p => (textRuns p).flatten) =
      paras.map Paragraph.text := by
    rw [List.map_map]
    apply List.map_congr_left
    intro p hp
    simp only [Function.comp, Paragraph.text]
    rw [textRuns_Paragraph_body p (h.2.1 p hp)]
  simp only [extractTextFromXML]
  rw [findAll_documentPartXML pre post paras h, writeParagraphs_eq _ 0 _ (by simp), hruns]

theorem head_trimLeftSpaceRev (s : Bytes) : (trimLeftSpaceRev s).head? ≠ some 10 := by
  induction s using trimLeftSpaceRev.induct with
  | case1 => simp [trimLeftSpaceRev]
  | case2 b0 r0 h0 ih =>
    rw [trimLeftSpaceRev.eq_def]; simp only [h0, if_true]
    exact ih
  | case3 b0 h0 =>
    rw [trimLeftSpaceRev.eq_def]; simp only [h0, if_false, Bool.false_eq_true]
    intro h
    simp only [List.head?_cons, Option.some.injEq] at h
    subst h
    exact h0 (by decide)
  | case4 b0 h0 b1 r1 h2 ih =>
    rw [trimLeftSpaceRev.eq_def]
    simp only [h0, if_false, h2, if_true, Bool.false_eq_true]
    exact ih
  | case5 b0 h0 b1 h2 =>
    rw [trimLeftSpaceRev.eq_def]; simp only [h0, if_false, h2, Bool.false_eq_true]
    intro h
    simp only [List.head?_cons, Option.some.injEq] at h
    subst h
    exact h0 (by decide)
  | case6 b0 h0 b1 h2 b2 r2 h3 ih =>
    rw [trimLeftSpaceRev.eq_def]
    simp only [h0, if_false, h2, h3, if_true, Bool.false_eq_true]
    exact ih
  | case7 b0 h0 b1 h2 b2 r2 h3 =>
    rw [trimLeftSpaceRev.eq_def]
    simp only [h0, if_false, h2, h3, Bool.false_eq_true]
    intro h
    simp only [List.head?_cons, Option.some.injEq] at h
    subst h
    exact h0 (by decide)

/-- A trimmed text does not end with a line feed. -/
theorem getLast_TrimSpace (s : Bytes) : (TrimSpace s).getLast? ≠ some 10 := by
  simp only [TrimSpace, trimRightSpace, List.getLast?_reverse]
  exact head_trimLeftSpaceRev _

theorem extractTextFromSlideXML_Slide (s : Slide) (h : s.wellFormed) :
    extractTextFromSlideXML s.xml = s.block := by
  simp only [Slide.wellFormed, ascii_at_open] at h
  have hf := findAll_runsXML [97, 58, 116] [47, 97, 58, 116, 62] (by decide) s.before s.elems h
  simp only [extractTextFromSlideXML, Slide.block, slideBlock, Slide.xml, ascii_at_open,
    ascii_at_close, hf, textParts_eq]

theorem slideLoop_parts (slideOf : ZipFile → Option Slide) :
    ∀ (files : List ZipFile) (allText : List Bytes) (slideCount : Nat),
      (∀ f ∈ files, isSlidePart f.Name = true →
        f.data = (slideOf f).map Slide.xml ∧ ∀ s, slideOf f = some s → s.wellFormed) →
      slideLoop files (allText, slideCount) =
        (allText ++ ((files.filter (fun f => isSlidePart f.Name)).map
            (partBlock slideOf)).filter (fun b => b != []),
          slideCount + (files.filter (fun f => isSlidePart f.Name)).length) := by
  intro files
  induction files with
  | nil => intro a n _; simp [slideLoop]
  | cons f files ih =>
    intro a n h
    have hrest : ∀ g ∈ files, isSlidePart g.Name = true →
        g.data = (slideOf g).map Slide.xml ∧ ∀ s, slideOf g = some s → s.wellFormed :=
      fun g hg => h g (List.mem_cons_of_mem _ hg)
    by_cases hs : isSlidePart f.Name = true
    · obtain ⟨hd, hw⟩ := h f (List.mem_cons_self _ _) hs
      cases hso : slideOf f with
      | none =>
        rw [hso] at hd
        have hb : partBlock slideOf f = [] := by simp [partBlock, hso]
        simp only [Option.map_none'] at hd
        simp only [slideLoop, hs, if_true, hd, hb, ih _ _ hrest, List.filter_cons,
          List.map_cons, List.length_cons]
        simp only [Nat.add_assoc, Nat.add_comm 1, bne_self_eq_false, Bool.false_eq_true,
          if_false]
      | some s =>
        rw [hso] at hd
        simp only [Option.map_some'] at hd
        have hx := extractTextFromSlideXML_Slide s (hw s hso)
        have hb : partBlock slideOf f = s.block := by simp [partBlock, hso]
        by_cases hne : (s.block != []) = true
        · simp only [slideLoop, hs, if_true, hd, hx, hb, hne, ih _ _ hrest, List.filter_cons,
            List.map_cons, List.length_cons, List.append_assoc, List.singleton_append]
          simp only [Nat.add_assoc, Nat.add_comm 1]
        · simp only [slideLoop, hs, if_true, hd, hx, hb, hne, ih _ _ hrest, List.filter_cons,
            List.map_cons, List.length_cons]
          simp only [Nat.add_assoc, Nat.add_comm 1, Bool.false_eq_true, if_false]
    · simp only [slideLoop, hs, ih _ _ hrest, List.filter_cons]
      simp

end GoFiletext
